import Mathlib

/-!
Shallow embedding of the distributed chat node (ds-g1-sms/node) for
specification checking.

Part 1: the client-side message ordering buffer
(`src/client/message_buffer.py`, class `MessageBuffer`).

Python dictionaries with a fixed key set are modelled as Lean structures,
Python sets as duplicate-free `List String` with insert-if-absent and
erase, and Python `None` / absent keys as `Option`.  A raw input to
`MessageBuffer.add_message` may be any Python value; we model it as
`Option PyMessage` where `none` stands for any non-dict value, and the
`sequence_number` entry as `Option PyVal` so that absent keys and
non-integer values are representable.  All buffer mutation happens after
validation, so the stored entries always carry an integer sequence
number; they are stored as `StoredMsg`.
-/

namespace DSG1

/-- A Python value appearing in a message dict field. -/
inductive PyVal : Type
  | vint (n : Int)
  | vstr (s : String)
  | vother
deriving DecidableEq, Repr

/-- A Python dict passed to `MessageBuffer.add_message`:
`sequence_number` models `message.get("sequence_number")` (`none` for an
absent key or a `None` value), `message_id` models
`message.get("message_id")` (`none` for absent/`None`; the empty string
is the other falsy case and is checked separately, mirroring Python
truthiness of `if message_id:`). -/
structure PyMessage where
  sequence_number : Option PyVal
  message_id : Option String
  content : String
deriving DecidableEq, Repr

/-- A message as stored in `MessageBuffer.messages`: only dicts whose
`sequence_number` passed validation (an `int` ≥ 1) are ever inserted,
so the stored entry carries the integer directly. -/
structure StoredMsg where
  message_id : Option String
  seq : Int
  content : String
deriving DecidableEq, Repr

/-- Python set `add`: insert if absent. -/
def setAdd (l : List String) (x : String) : List String :=
  if x ∈ l then l else l ++ [x]

/-- Python set `discard` guarded by `if msg_id:` truthiness. -/
def discardId (l : List String) (id : Option String) : List String :=
  match id with
  | some x => if x = "" then l else l.erase x
  | none => l

/-- State of `MessageBuffer` (`src/client/message_buffer.py`). -/
structure MessageBuffer where
  messages : List StoredMsg
  last_displayed_seq : Int
  max_buffer_size : Nat
  max_displayed_ids : Nat
  seen_ids : List String
  displayed_set : List String
  displayed_list : List String
deriving DecidableEq, Repr

/-- `MessageBuffer.__init__`. -/
def MessageBuffer.init (maxBuf maxDisp : Nat) : MessageBuffer :=
  { messages := []
    last_displayed_seq := 0
    max_buffer_size := maxBuf
    max_displayed_ids := maxDisp
    seen_ids := []
    displayed_set := []
    displayed_list := [] }

/-- `self.messages[i].get("sequence_number", 0)` for an index known to be
in range in the binary search. -/
def seqAt (msgs : List StoredMsg) (i : Nat) : Int :=
  match msgs[i]? with
  | some m => m.seq
  | none => 0

/-- The loop of `MessageBuffer._find_insert_position`. -/
def findInsertAux (msgs : List StoredMsg) (target : Int) (left right : Nat) : Nat :=
  if h : left < right then
    let mid := (left + right) / 2
    if seqAt msgs mid < target then
      findInsertAux msgs target (mid + 1) right
    else
      findInsertAux msgs target left mid
  else left
termination_by right - left
decreasing_by
  all_goals omega

/-- `MessageBuffer._find_insert_position`. -/
def findInsertPosition (msgs : List StoredMsg) (target : Int) : Nat :=
  findInsertAux msgs target 0 msgs.length

/-- Truthiness of the optional `message_id`. -/
def truthyId : Option String → Bool
  | some s => s ≠ ""
  | none => false

/-- `MessageBuffer._enforce_buffer_limit`. -/
def enforceBufferLimit (b : MessageBuffer) : MessageBuffer :=
  if b.messages.length > b.max_buffer_size then
    let excess := b.messages.length - b.max_buffer_size
    let removed := b.messages.take excess
    { b with
      messages := b.messages.drop excess
      seen_ids := removed.foldl (fun s m => discardId s m.message_id) b.seen_ids }
  else b

/-- `MessageBuffer.add_message`.  The input is `none` when the Python
argument is not a dict.  Returns the Python return value together with
the state after the call. -/
def MessageBuffer.addMessage (b : MessageBuffer) (input : Option PyMessage) :
    Bool × MessageBuffer :=
  match input with
  | none => (false, b)
  | some msg =>
    match msg.sequence_number with
    | none => (false, b)
    | some (PyVal.vstr _) => (false, b)
    | some PyVal.vother => (false, b)
    | some (PyVal.vint n) =>
      if n < 1 then (false, b)
      else if truthyId msg.message_id ∧
          (∃ s, msg.message_id = some s ∧
            (s ∈ b.seen_ids ∨ s ∈ b.displayed_set)) then (false, b)
      else if n ≤ b.last_displayed_seq then (false, b)
      else
        let pos := findInsertPosition b.messages n
        if (match b.messages[pos]? with
            | some m => decide (m.seq = n)
            | none => false) then (false, b)
        else
          let stored : StoredMsg := ⟨msg.message_id, n, msg.content⟩
          let b1 := { b with
            messages := b.messages.insertIdx pos stored
            seen_ids :=
              if truthyId msg.message_id then
                match msg.message_id with
                | some s => setAdd b.seen_ids s
                | none => b.seen_ids
              else b.seen_ids }
          (true, enforceBufferLimit b1)

/-- The accumulation loop of `MessageBuffer.get_new_messages`: collect
messages while their sequence number matches `expected`, stop at the
first gap, skip entries below `expected`. -/
def collectDisplayable (expected : Int) : List StoredMsg → List StoredMsg
  | [] => []
  | m :: rest =>
    if m.seq = expected then m :: collectDisplayable (expected + 1) rest
    else if m.seq > expected then []
    else collectDisplayable expected rest

/-- Sequence number of the last element (`displayable[-1]`), with a
default for the (unused) empty case. -/
def lastSeqD : List StoredMsg → Int → Int
  | [], d => d
  | [m], _ => m.seq
  | _ :: m :: rest, d => lastSeqD (m :: rest) d

/-- `MessageBuffer._enforce_displayed_ids_limit`. -/
def enforceDisplayedIdsLimit (dset dlist : List String) (cap : Nat) :
    List String × List String :=
  if dlist.length > cap then
    let excess := dlist.length - cap
    ((dlist.take excess).foldl (fun s x => s.erase x) dset, dlist.drop excess)
  else (dset, dlist)

/-- The id-bookkeeping step of `get_new_messages` for one displayed
message (`if msg_id: seen.discard; displayed_set.add;
displayed_list.append`). -/
def moveIdStep (acc : List String × List String × List String)
    (m : StoredMsg) : List String × List String × List String :=
  match m.message_id with
  | some s =>
    if s = "" then acc
    else (acc.1.erase s, setAdd acc.2.1 s, acc.2.2 ++ [s])
  | none => acc

/-- `MessageBuffer.get_new_messages`.  Returns the displayable list and
the state after the call. -/
def MessageBuffer.getNewMessages (b : MessageBuffer) :
    List StoredMsg × MessageBuffer :=
  let displayable := collectDisplayable (b.last_displayed_seq + 1) b.messages
  if displayable.isEmpty then (displayable, b)
  else
    let moved := displayable.foldl moveIdStep
      (b.seen_ids, b.displayed_set, b.displayed_list)
    let lim := enforceDisplayedIdsLimit moved.2.1 moved.2.2 b.max_displayed_ids
    (displayable,
      { b with
        last_displayed_seq := lastSeqD displayable b.last_displayed_seq
        messages := b.messages.drop displayable.length
        seen_ids := moved.1
        displayed_set := lim.1
        displayed_list := lim.2 })

/-- `MessageBuffer.has_gap`. -/
def MessageBuffer.hasGap (b : MessageBuffer) : Bool :=
  match b.messages with
  | [] => false
  | m :: _ => m.seq > b.last_displayed_seq + 1

/-!
Part 2: the node-side room state manager (`src/node/room_state.py`) and
the client-endpoint deletion coordinator (`src/node/websocket_server.py`).

Python dicts keyed by strings are modelled as association lists with
dict-assignment (`aupdate`: replace in place, else append), `del`
(`aremove`: drop the binding) and `get` (`alookup`).  Wall-clock reads
(`datetime.now(...).isoformat()`) and UUID draws (`uuid.uuid4()`) are
nondeterministic inputs of the real code; the embedding takes them as
explicit arguments.
-/

/-- `dict.get`. -/
def alookup {α : Type} (l : List (String × α)) (k : String) : Option α :=
  match l with
  | [] => none
  | (k', v) :: rest => if k' = k then some v else alookup rest k

/-- dict assignment `d[k] = v` (replaces in place, appends if new). -/
def aupdate {α : Type} (l : List (String × α)) (k : String) (v : α) :
    List (String × α) :=
  match l with
  | [] => [(k, v)]
  | (k', v') :: rest =>
    if k' = k then (k, v) :: rest else (k', v') :: aupdate rest k v

/-- `del d[k]` (drops the first binding for `k`). -/
def aremove {α : Type} (l : List (String × α)) (k : String) :
    List (String × α) :=
  match l with
  | [] => []
  | (k', v') :: rest =>
    if k' = k then rest else (k', v') :: aremove rest k

/-- `RoomState` enum (`room_state.py`). -/
inductive RoomState : Type
  | ACTIVE
  | DELETION_PENDING
  | COMMITTING
  | ROLLING_BACK
deriving DecidableEq, Repr

/-- `TransactionState` enum (`room_state.py`). -/
inductive TransactionState : Type
  | PREPARE
  | COMMIT
  | ROLLBACK
  | COMPLETED
deriving DecidableEq, Repr

/-- `MemberInfo` dataclass; `__post_init__` fills both timestamps with
the current time, passed here explicitly. -/
structure MemberInfo where
  username : String
  node_id : String
  joined_at : String
  last_activity : String
deriving DecidableEq, Repr

/-- `NodeStatus` enum. -/
inductive NodeStatus : Type
  | HEALTHY
  | DEGRADED
  | FAILED
deriving DecidableEq, Repr

/-- `NodeHealth` dataclass. -/
structure NodeHealth where
  node_id : String
  last_heartbeat : String
  status : NodeStatus
  consecutive_failures : Nat
deriving DecidableEq, Repr

/-- A message produced by `RoomStateManager.add_message` (the dict built
at `room_state.py:653`). -/
structure ServerMessage where
  message_id : String
  room_id : String
  username : String
  content : String
  sequence_number : Nat
  timestamp : String
deriving DecidableEq, Repr

/-- `Room` dataclass. -/
structure Room where
  room_id : String
  room_name : String
  description : Option String
  creator_id : String
  admin_node : String
  members : List String
  created_at : String
  message_counter : Nat
  messages : List ServerMessage
  state : RoomState
  member_info : List (String × MemberInfo)
deriving DecidableEq, Repr

/-- `DeletionTransaction` dataclass (coordinator side). -/
structure DeletionTransaction where
  transaction_id : String
  room_id : String
  state : TransactionState
  participants : List String
  votes : List (String × Option String)
  start_time : String
  timeout : Nat
deriving DecidableEq, Repr

/-- `PreparedTransaction` dataclass (participant side). -/
structure PreparedTransaction where
  transaction_id : String
  room_id : String
  coordinator : String
  vote : String
  prepared_at : String
deriving DecidableEq, Repr

/-- `RoomStateManager` state. -/
structure Manager where
  node_id : String
  rooms : List (String × Room)
  deletion_transactions : List (String × DeletionTransaction)
  prepared_transactions : List (String × PreparedTransaction)
  node_health : List (String × NodeHealth)
deriving DecidableEq, Repr

/-- `RoomStateManager.__init__`. -/
def Manager.init (nodeId : String) : Manager :=
  { node_id := nodeId
    rooms := []
    deletion_transactions := []
    prepared_transactions := []
    node_health := [] }

/-- `RoomStateManager.create_room` minus the duplicate-name check result
(the caller handles the raised `ValueError`); `roomId` models the fresh
`uuid.uuid4()` and `now` the clock read. -/
def Manager.createRoom (m : Manager) (roomName : String)
    (creatorId : String) (description : Option String)
    (roomId now : String) : Manager × Room :=
  let room : Room :=
    { room_id := roomId
      room_name := roomName
      description := description
      creator_id := creatorId
      admin_node := m.node_id
      members := []
      created_at := now
      message_counter := 0
      messages := []
      state := RoomState.ACTIVE
      member_info := [] }
  ({ m with rooms := aupdate m.rooms roomId room }, room)

/-- `RoomStateManager.get_room`. -/
def Manager.getRoom (m : Manager) (roomId : String) : Option Room :=
  alookup m.rooms roomId

/-- `RoomStateManager.delete_room`. -/
def Manager.deleteRoom (m : Manager) (roomId : String) : Manager × Bool :=
  match alookup m.rooms roomId with
  | some _ => ({ m with rooms := aremove m.rooms roomId }, true)
  | none => (m, false)

/-- Python `node_id if node_id else self.node_id` (the empty string is
falsy). -/
def resolveNode (selfNode : String) (nodeId : Option String) : String :=
  match nodeId with
  | some s => if s = "" then selfNode else s
  | none => selfNode

/-- `RoomStateManager.add_member`; `now` models the clock read inside
`MemberInfo.__post_init__`. -/
def Manager.addMember (m : Manager) (roomId userId : String)
    (nodeId : Option String) (now : String) : Manager × Bool :=
  match alookup m.rooms roomId with
  | none => (m, false)
  | some room =>
    let memberNode := resolveNode m.node_id nodeId
    let room' := { room with
      members := if userId ∈ room.members then room.members
                 else room.members ++ [userId]
      member_info := aupdate room.member_info userId
        { username := userId
          node_id := memberNode
          joined_at := now
          last_activity := now } }
    let health' :=
      if memberNode ≠ m.node_id then
        match alookup m.node_health memberNode with
        | none => aupdate m.node_health memberNode
            { node_id := memberNode
              last_heartbeat := now
              status := NodeStatus.HEALTHY
              consecutive_failures := 0 }
        | some _ => m.node_health
      else m.node_health
    ({ m with rooms := aupdate m.rooms roomId room', node_health := health' },
      true)

/-- `RoomStateManager.add_message`; `uuid` models the `uuid.uuid4()`
draw and `now` the clock read.  `maxMessages` is the `max_messages`
parameter (default 100). -/
def Manager.addMessage (m : Manager) (roomId username content : String)
    (uuid now : String) (maxMessages : Nat := 100) :
    Manager × Option ServerMessage :=
  match alookup m.rooms roomId with
  | none => (m, none)
  | some room =>
    if username ∉ room.members then (m, none)
    else
      let seqNum := room.message_counter + 1
      let message : ServerMessage :=
        { message_id := uuid
          room_id := roomId
          username := username
          content := content
          sequence_number := seqNum
          timestamp := now }
      let buf := room.messages ++ [message]
      let buf' := if buf.length > maxMessages then buf.drop 1 else buf
      let room' := { room with message_counter := seqNum, messages := buf' }
      ({ m with rooms := aupdate m.rooms roomId room' }, some message)

/-- `RoomStateManager.can_operate_on_room`. -/
def Manager.canOperateOnRoom (m : Manager) (roomId : String) : Bool :=
  match alookup m.rooms roomId with
  | none => false
  | some room => room.state = RoomState.ACTIVE

/-- `RoomStateManager.start_deletion_transaction`; `txnId` models the
fresh `uuid.uuid4()` and `now` the clock read. -/
def Manager.startDeletionTransaction (m : Manager) (roomId : String)
    (participants : List String) (txnId now : String) :
    Manager × Option DeletionTransaction :=
  match alookup m.rooms roomId with
  | none => (m, none)
  | some room =>
    if room.state ≠ RoomState.ACTIVE then (m, none)
    else
      let txn : DeletionTransaction :=
        { transaction_id := txnId
          room_id := roomId
          state := TransactionState.PREPARE
          participants := participants
          votes := participants.map (fun nid => (nid, none))
          start_time := now
          timeout := 5 }
      let room' := { room with state := RoomState.DELETION_PENDING }
      ({ m with
          rooms := aupdate m.rooms roomId room'
          deletion_transactions :=
            aupdate m.deletion_transactions txnId txn },
        some txn)

/-- `RoomStateManager.record_vote`. -/
def Manager.recordVote (m : Manager) (txnId nodeId vote : String) :
    Manager × Bool :=
  match alookup m.deletion_transactions txnId with
  | none => (m, false)
  | some txn =>
    match alookup txn.votes nodeId with
    | none => (m, false)
    | some _ =>
      let txn' := { txn with votes := aupdate txn.votes nodeId (some vote) }
      ({ m with deletion_transactions :=
          aupdate m.deletion_transactions txnId txn' }, true)

/-- `RoomStateManager.transition_to_commit`. -/
def Manager.transitionToCommit (m : Manager) (txnId : String) :
    Manager × Bool :=
  match alookup m.deletion_transactions txnId with
  | none => (m, false)
  | some txn =>
    let txn' := { txn with state := TransactionState.COMMIT }
    let rooms' :=
      match alookup m.rooms txn.room_id with
      | some room =>
        aupdate m.rooms txn.room_id { room with state := RoomState.COMMITTING }
      | none => m.rooms
    ({ m with
        rooms := rooms'
        deletion_transactions :=
          aupdate m.deletion_transactions txnId txn' }, true)

/-- `RoomStateManager.transition_to_rollback`. -/
def Manager.transitionToRollback (m : Manager) (txnId : String) :
    Manager × Bool :=
  match alookup m.deletion_transactions txnId with
  | none => (m, false)
  | some txn =>
    let txn' := { txn with state := TransactionState.ROLLBACK }
    let rooms' :=
      match alookup m.rooms txn.room_id with
      | some room =>
        aupdate m.rooms txn.room_id
          { room with state := RoomState.ROLLING_BACK }
      | none => m.rooms
    ({ m with
        rooms := rooms'
        deletion_transactions :=
          aupdate m.deletion_transactions txnId txn' }, true)

/-- `RoomStateManager.complete_deletion`. -/
def Manager.completeDeletion (m : Manager) (txnId : String) :
    Manager × Bool :=
  match alookup m.deletion_transactions txnId with
  | none => (m, false)
  | some txn =>
    let del := Manager.deleteRoom m txn.room_id
    let m1 := del.1
    ({ m1 with deletion_transactions :=
        aremove m1.deletion_transactions txnId }, del.2)

/-- `RoomStateManager.rollback_deletion`. -/
def Manager.rollbackDeletion (m : Manager) (txnId : String) :
    Manager × Bool :=
  match alookup m.deletion_transactions txnId with
  | none => (m, false)
  | some txn =>
    let rooms' :=
      match alookup m.rooms txn.room_id with
      | some room =>
        aupdate m.rooms txn.room_id { room with state := RoomState.ACTIVE }
      | none => m.rooms
    ({ m with
        rooms := rooms'
        deletion_transactions := aremove m.deletion_transactions txnId },
      true)

/-- Result dict of the participant 2PC primitives. -/
structure VoteResult where
  vote : String
  node_id : String
  transaction_id : String
  reason : Option String
deriving DecidableEq, Repr

/-- `room.state.value` strings of the `RoomState` enum. -/
def roomStateValue : RoomState → String
  | RoomState.ACTIVE => "ACTIVE"
  | RoomState.DELETION_PENDING => "DELETION_PENDING"
  | RoomState.COMMITTING => "COMMITTING"
  | RoomState.ROLLING_BACK => "ROLLING_BACK"

/-- `RoomStateManager.prepare_for_deletion`; `now` models the clock
read inside `PreparedTransaction.__post_init__`. -/
def Manager.prepareForDeletion (m : Manager)
    (roomId txnId coordinator now : String) : Manager × VoteResult :=
  match alookup m.rooms roomId with
  | none =>
    (m, { vote := "READY", node_id := m.node_id, transaction_id := txnId
          reason := none })
  | some room =>
    if room.state ≠ RoomState.ACTIVE then
      (m, { vote := "ABORT", node_id := m.node_id, transaction_id := txnId
            reason := some ("Room in " ++ roomStateValue room.state
              ++ " state") })
    else
      let room' := { room with state := RoomState.DELETION_PENDING }
      let prepared : PreparedTransaction :=
        { transaction_id := txnId
          room_id := roomId
          coordinator := coordinator
          vote := "READY"
          prepared_at := now }
      ({ m with
          rooms := aupdate m.rooms roomId room'
          prepared_transactions :=
            aupdate m.prepared_transactions txnId prepared },
        { vote := "READY", node_id := m.node_id, transaction_id := txnId
          reason := none })

/-!
The client-endpoint deletion coordinator
(`WebSocketServer.handle_delete_room` / `_execute_2pc_deletion` in
`src/node/websocket_server.py`).  The network is abstracted: the PREPARE
responses are an input (`votes`, an association list in the iteration
order of the collected `votes` dict; `none` models a timeout), and the
COMMIT / ROLLBACK fan-out is recorded as the list of nodes a call was
issued to (participants with a registry address).
-/

/-- The participant response dict seen by the coordinator's vote loop:
`vote` is `vote_result.get("vote")` and `reason` models the presence of
a `"reason"` key. -/
structure PrepareVote where
  vote : String
  reason : Option String
deriving DecidableEq, Repr

/-- One iteration of the vote loop of `_execute_2pc_deletion` (lines
1289-1308): record the vote and update `all_ready` and `abort_reason`
(the latter is overwritten on every non-READY vote). -/
def voteStep (txnId : String) (acc : Manager × Bool × Option String)
    (nv : String × Option PrepareVote) : Manager × Bool × Option String :=
  match nv.2 with
  | none =>
    ((Manager.recordVote acc.1 txnId nv.1 "ABORT").1, false,
      some ("Node " ++ nv.1 ++ " timed out"))
  | some v =>
    if v.vote = "ABORT" then
      ((Manager.recordVote acc.1 txnId nv.1 "ABORT").1, false,
        some (v.reason.getD ("Node " ++ nv.1 ++ " voted ABORT")))
    else
      ((Manager.recordVote acc.1 txnId nv.1 "READY").1, acc.2.1, acc.2.2)

/-- The vote loop of `_execute_2pc_deletion`: folds `voteStep` over
`votes.items()` starting from `all_ready = True`, `abort_reason =
None`. -/
def processVotes (m : Manager) (txnId : String)
    (votes : List (String × Option PrepareVote)) :
    Manager × Bool × Option String :=
  votes.foldl (voteStep txnId) (m, true, none)

/-- Participants a phase-2 call is issued to: those with an address in
the peer registry (`peer_registry.get_peer_address`). -/
def sendTargets (registry : List (String × String))
    (participants : List String) : List String :=
  participants.filter (fun nid => (alookup registry nid).isSome)

/-- Outcome of `_execute_2pc_deletion`: return value plus the phase-2
fan-out targets. -/
structure TwoPCOutcome where
  success : Bool
  reason : Option String
  sends : List String
deriving DecidableEq, Repr

/-- `WebSocketServer._execute_2pc_deletion`. -/
def executeTwoPCDeletion (m : Manager) (registry : List (String × String))
    (txn : DeletionTransaction)
    (votes : List (String × Option PrepareVote)) :
    Manager × TwoPCOutcome :=
  let pv := processVotes m txn.transaction_id votes
  if pv.2.1 then
    let m2 := (Manager.transitionToCommit pv.1 txn.transaction_id).1
    let m3 := (Manager.completeDeletion m2 txn.transaction_id).1
    (m3, { success := true, reason := none
           sends := sendTargets registry txn.participants })
  else
    let m2 := (Manager.transitionToRollback pv.1 txn.transaction_id).1
    let m3 := (Manager.rollbackDeletion m2 txn.transaction_id).1
    (m3, { success := false, reason := pv.2.2
           sends := sendTargets registry txn.participants })

/-- Truthiness of an optional string request field. -/
def truthy : Option String → Bool
  | some s => s ≠ ""
  | none => false

/-- `x or ""` on an optional string field. -/
def strOrEmpty : Option String → String
  | some s => s
  | none => ""

/-- The `delete_room_failed` / `delete_room_success` frame sent back to
the initiator (`_send_delete_room_error` builds the failed frame). -/
inductive DeleteRoomResponse : Type
  | failed (room_id reason error_code : String)
      (transaction_id : Option String)
  | success (room_id transaction_id message : String)
deriving DecidableEq, Repr

/-- `WebSocketServer.handle_delete_room` (validation, authorization and
2PC driver); `txnUuid`/`now` model the transaction's fresh UUID and
clock read, `votes` the collected PREPARE responses. -/
def handleDeleteRoom (m : Manager) (registry : List (String × String))
    (roomIdOpt usernameOpt : Option String) (txnUuid now : String)
    (votes : List (String × Option PrepareVote)) :
    Manager × DeleteRoomResponse :=
  if ¬ truthy roomIdOpt ∨ ¬ truthy usernameOpt then
    (m, DeleteRoomResponse.failed (strOrEmpty roomIdOpt)
      "Missing room_id or username" "INVALID_REQUEST" none)
  else
    let roomId := strOrEmpty roomIdOpt
    let username := strOrEmpty usernameOpt
    match Manager.getRoom m roomId with
    | none =>
      (m, DeleteRoomResponse.failed roomId "Room not found"
        "ROOM_NOT_FOUND" none)
    | some room =>
      if room.creator_id ≠ username then
        (m, DeleteRoomResponse.failed roomId
          "Only the room creator can delete the room" "UNAUTHORIZED" none)
      else if room.state ≠ RoomState.ACTIVE then
        (m, DeleteRoomResponse.failed roomId
          ("Room is in " ++ roomStateValue room.state
            ++ " state, cannot delete") "INVALID_STATE" none)
      else
        let participants := registry.map Prod.fst
        let st := Manager.startDeletionTransaction m roomId participants
          txnUuid now
        match st.2 with
        | none =>
          (st.1, DeleteRoomResponse.failed roomId
            "Failed to start deletion transaction" "INTERNAL_ERROR" none)
        | some txn =>
          let ex := executeTwoPCDeletion st.1 registry txn votes
          if ex.2.success then
            (ex.1, DeleteRoomResponse.success roomId txn.transaction_id
              "Room deleted successfully")
          else
            (ex.1, DeleteRoomResponse.failed roomId
              (match ex.2.reason with
               | some r => if r = "" then "Deletion failed" else r
               | none => "Deletion failed")
              "DELETION_FAILED"
              (if txn.transaction_id = "" then none
               else some txn.transaction_id))

/-!
The inter-node heartbeat.  `XMLRPCServer.start` registers
`self.heartbeat` as the `heartbeat` RPC method and `main._send_heartbeat`
calls it, but the method body itself is not among the provided sources.
-/

/-- The `{status, node_id, timestamp}` dict returned by the heartbeat
RPC. -/
structure HeartbeatResponse where
  status : String
  node_id : String
  timestamp : String
deriving DecidableEq, Repr

/-- Modelled from the spec: the body of `XMLRPCServer.heartbeat` is
missing from the provided sources (only its registration in
`XMLRPCServer.start` and its callers exist); per the spec it
"Returns `{status:"ok", node_id, timestamp}`". -/
def heartbeat (nodeId now : String) : HeartbeatResponse :=
  { status := "ok", node_id := nodeId, timestamp := now }

/-- The success test of `main._send_heartbeat`:
`response.get("status") == "ok"`. -/
def sendHeartbeatCheck (r : HeartbeatResponse) : Bool :=
  r.status = "ok"

/-- `RoomStateManager.record_node_heartbeat_success`; `now` models the
clock read. -/
def Manager.recordNodeHeartbeatSuccess (m : Manager) (nodeId now : String) :
    Manager :=
  match alookup m.node_health nodeId with
  | some h =>
    let h' := { h with last_heartbeat := now, status := NodeStatus.HEALTHY
                       consecutive_failures := 0 }
    { m with node_health := aupdate m.node_health nodeId h' }
  | none =>
    let h' : NodeHealth :=
      { node_id := nodeId, last_heartbeat := now
        status := NodeStatus.HEALTHY, consecutive_failures := 0 }
    { m with node_health := aupdate m.node_health nodeId h' }

/-- One heartbeat-monitor step for a peer (`main.heartbeat_monitor`):
the result of `_send_heartbeat` decides whether a success is recorded. -/
def heartbeatMonitorStep (m : Manager) (r : HeartbeatResponse)
    (nodeId now : String) : Manager × Bool :=
  if sendHeartbeatCheck r then
    (Manager.recordNodeHeartbeatSuccess m nodeId now, true)
  else (m, false)

/-- One `add_message` call with its nondeterministic inputs. -/
structure AddCall where
  username : String
  content : String
  uuid : String
  now : String
deriving DecidableEq, Repr

/-- Run a sequence of `RoomStateManager.add_message` calls on one room,
collecting the successfully returned messages in order. -/
def runAddMessages (m : Manager) (roomId : String) :
    List AddCall → Manager × List ServerMessage
  | [] => (m, [])
  | c :: rest =>
    let r := Manager.addMessage m roomId c.username c.content c.uuid c.now
    let t := runAddMessages r.1 roomId rest
    (t.1, match r.2 with
          | some msg => msg :: t.2
          | none => t.2)

/-!  Association-list lemmas. -/

theorem alookup_aupdate_self {α : Type} (l : List (String × α)) (k : String)
    (v : α) : alookup (aupdate l k v) k = some v := by
  induction l with
  | nil => simp [aupdate, alookup]
  | cons p rest ih =>
    by_cases h : p.1 = k
    · simp [aupdate, alookup, h]
    · simp [aupdate, alookup, h, ih]

theorem alookup_aupdate_ne {α : Type} (l : List (String × α)) (k k' : String)
    (v : α) (h : k ≠ k') :
    alookup (aupdate l k v) k' = alookup l k' := by
  induction l with
  | nil => simp [aupdate, alookup, h]
  | cons p rest ih =>
    by_cases hp : p.1 = k
    · simp [aupdate, alookup, hp, h]
    · simp only [aupdate, hp, if_neg hp]
      by_cases hp' : p.1 = k'
      · simp [alookup, hp']
      · simp [alookup, hp', ih]

theorem alookup_eq_none_of_not_mem {α : Type} (l : List (String × α))
    (k : String) (h : k ∉ l.map Prod.fst) : alookup l k = none := by
  induction l with
  | nil => rfl
  | cons p rest ih =>
    simp only [List.map_cons, List.mem_cons, not_or] at h
    simp only [alookup]
    rw [if_neg (fun he => h.1 he.symm)]
    exact ih h.2

theorem alookup_aremove_self {α : Type} (l : List (String × α)) (k : String)
    (hnd : (l.map Prod.fst).Nodup) :
    alookup (aremove l k) k = none := by
  induction l with
  | nil => rfl
  | cons p rest ih =>
    simp only [List.map_cons, List.nodup_cons] at hnd
    by_cases h : p.1 = k
    · subst h
      simp only [aremove, if_pos rfl]
      exact alookup_eq_none_of_not_mem rest p.1 hnd.1
    · simp [aremove, h, alookup, ih hnd.2]

/-!  C8: the heartbeat RPC. -/

/-- C8: the heartbeat method returns status "ok" with this node's id
and a timestamp, the caller-side check in `_send_heartbeat` accepts it,
and the heartbeat monitor records a success on that basis. -/
theorem heartbeat_returns_ok (nodeId now : String) (m : Manager) :
    (heartbeat nodeId now).status = "ok" ∧
    (heartbeat nodeId now).node_id = nodeId ∧
    (heartbeat nodeId now).timestamp = now ∧
    sendHeartbeatCheck (heartbeat nodeId now) = true ∧
    (heartbeatMonitorStep m (heartbeat nodeId now) nodeId now).2 = true ∧
    (heartbeatMonitorStep m (heartbeat nodeId now) nodeId now).1 =
      Manager.recordNodeHeartbeatSuccess m nodeId now := by
  refine ⟨rfl, rfl, rfl, rfl, ?_, ?_⟩ <;>
    simp [heartbeatMonitorStep, sendHeartbeatCheck, heartbeat]

/-!  C9: re-adding an existing member. -/

/-- C9: `add_member` on a username already in the room's members
returns True, leaves the members set unchanged, and unconditionally
replaces the member's `MemberInfo` with a fresh record whose
`joined_at` and `last_activity` are the time of the call. -/
theorem addMember_existing_resets_timestamps (m : Manager)
    (roomId userId : String) (nodeId : Option String) (now : String)
    (room : Room) (hroom : alookup m.rooms roomId = some room)
    (hmem : userId ∈ room.members) :
    (Manager.addMember m roomId userId nodeId now).2 = true ∧
    ∃ room',
      alookup (Manager.addMember m roomId userId nodeId now).1.rooms roomId
        = some room' ∧
      room'.members = room.members ∧
      alookup room'.member_info userId = some
        { username := userId
          node_id := resolveNode m.node_id nodeId
          joined_at := now
          last_activity := now } := by
  refine ⟨by simp [Manager.addMember, hroom], ?_⟩
  refine ⟨{ room with
      members := if userId ∈ room.members then room.members
                 else room.members ++ [userId]
      member_info := aupdate room.member_info userId
        { username := userId
          node_id := resolveNode m.node_id nodeId
          joined_at := now
          last_activity := now } }, ?_, ?_, ?_⟩
  · simp only [Manager.addMember, hroom]
    exact alookup_aupdate_self ..
  · simp [hmem]
  · exact alookup_aupdate_self ..

/-- A concrete one-member ACTIVE room used by several witnesses. -/
def roomActive : Room :=
  { room_id := "rid", room_name := "r", description := none
    creator_id := "alice", admin_node := "n1"
    members := ["alice"], created_at := "t0"
    message_counter := 0, messages := []
    state := RoomState.ACTIVE
    member_info := [("alice",
      { username := "alice", node_id := "n1"
        joined_at := "t0", last_activity := "t0" })] }

/-- A concrete manager holding `roomActive`, used by several witnesses. -/
def mgrActive : Manager :=
  { node_id := "n1"
    rooms := [("rid", roomActive)]
    deletion_transactions := []
    prepared_transactions := []
    node_health := [] }

/-- Witness for C9 at a concrete state. -/
theorem addMember_existing_resets_timestamps_witness :
    (Manager.addMember mgrActive "rid" "alice" (some "n2") "t9").2 = true :=
  (addMember_existing_resets_timestamps mgrActive "rid" "alice" (some "n2") "t9"
    roomActive (by decide) (by decide)).1

/-!  C10: totality and frame of `MessageBuffer.add_message` on invalid
input. -/

/-- An input rejected by the validation prologue of
`MessageBuffer.add_message`: not a dict, no `sequence_number`, or a
`sequence_number` that is not an integer ≥ 1. -/
def invalidBufferInput : Option PyMessage → Prop
  | none => True
  | some msg =>
    match msg.sequence_number with
    | some (PyVal.vint n) => n < 1
    | _ => True

/-- C10: on any invalid input, `MessageBuffer.add_message` returns
False and leaves the entire buffer state unchanged. -/
theorem addMessage_invalid_input_no_change (b : MessageBuffer)
    (input : Option PyMessage) (h : invalidBufferInput input) :
    MessageBuffer.addMessage b input = (false, b) := by
  match input with
  | none => rfl
  | some msg =>
    match hs : msg.sequence_number with
    | none => simp [MessageBuffer.addMessage, hs]
    | some (PyVal.vstr s) => simp [MessageBuffer.addMessage, hs]
    | some PyVal.vother => simp [MessageBuffer.addMessage, hs]
    | some (PyVal.vint n) =>
      simp only [invalidBufferInput, hs] at h
      simp [MessageBuffer.addMessage, hs, h]

/-- Witness for C10: a dict whose `sequence_number` is the integer 0 is
rejected without touching a nonempty buffer state. -/
theorem addMessage_invalid_input_no_change_witness :
    MessageBuffer.addMessage
      { messages := [⟨some "id1", 1, "hello"⟩]
        last_displayed_seq := 0
        max_buffer_size := 1000, max_displayed_ids := 5000
        seen_ids := ["id1"], displayed_set := [], displayed_list := [] }
      (some ⟨some (PyVal.vint 0), some "id2", "bad"⟩) =
    (false,
      { messages := [⟨some "id1", 1, "hello"⟩]
        last_displayed_seq := 0
        max_buffer_size := 1000, max_displayed_ids := 5000
        seen_ids := ["id1"], displayed_set := [], displayed_list := [] }) :=
  addMessage_invalid_input_no_change _ _ (by
    show (0 : Int) < 1
    norm_num)

/-!  C2: which calls `RoomStateManager.add_message` rejects. -/

/-- The concrete room for the C2 counterexample: a member room whose
state is `DELETION_PENDING`. -/
def roomC2 : Room :=
  { room_id := "rid", room_name := "r", description := none
    creator_id := "alice", admin_node := "n1"
    members := ["alice"], created_at := "t0"
    message_counter := 0, messages := []
    state := RoomState.DELETION_PENDING
    member_info := [] }

/-- The concrete manager for the C2 counterexample. -/
def mgrC2 : Manager :=
  { node_id := "n1", rooms := [("rid", roomC2)]
    deletion_transactions := [], prepared_transactions := []
    node_health := [] }

/-- Counterexample to C2: `add_message` does not check the room state,
so a member's message to a `DELETION_PENDING` room is accepted, while
the claim requires it to be rejected. -/
theorem addMessage_state_check_cex :
    alookup mgrC2.rooms "rid" = some roomC2 ∧
    roomC2.state ≠ RoomState.ACTIVE ∧
    "alice" ∈ roomC2.members ∧
    ¬ ((Manager.addMessage mgrC2 "rid" "alice" "hi" "u1" "t2").2 = none ↔
        (alookup mgrC2.rooms "rid" = none ∨
         roomC2.state ≠ RoomState.ACTIVE ∨
         "alice" ∉ roomC2.members)) := by
  decide

/-- C2 amended: `add_message` rejects (returns no message and changes
no state) iff the room is missing or the username is not in the room's
members; the room's 2PC state is not consulted, so a room in
`DELETION_PENDING`, `COMMITTING` or `ROLLING_BACK` still accepts
messages from its members. -/
theorem addMessage_reject_iff (m : Manager)
    (roomId username content uuid now : String) (maxM : Nat) :
    ((Manager.addMessage m roomId username content uuid now maxM).2 = none ↔
      (alookup m.rooms roomId = none ∨
       ∃ r, alookup m.rooms roomId = some r ∧ username ∉ r.members)) ∧
    ((Manager.addMessage m roomId username content uuid now maxM).2 = none →
      (Manager.addMessage m roomId username content uuid now maxM).1 = m) := by
  cases h : alookup m.rooms roomId with
  | none => simp [Manager.addMessage, h]
  | some room =>
    by_cases hm : username ∈ room.members
    · simp [Manager.addMessage, h, hm]
    · simp [Manager.addMessage, h, hm]

/-- Witness for C2's amended theorem: a rejected call (unknown room)
leaves the manager unchanged. -/
theorem addMessage_reject_iff_witness :
    (Manager.addMessage mgrC2 "ghost" "alice" "hi" "u1" "t2" 100).1 =
      mgrC2 :=
  (addMessage_reject_iff mgrC2 "ghost" "alice" "hi" "u1" "t2" 100).2
    (by decide)

/-!  C6: the participant PREPARE primitive. -/

/-- C6: `prepare_for_deletion` votes ABORT with a reason exactly when
the room exists and is not ACTIVE; it votes READY otherwise (including
for an unknown room, without touching the state); and a READY vote on a
known ACTIVE room marks the room `DELETION_PENDING` and records a
`PreparedTransaction` under the transaction id. -/
theorem prepareForDeletion_spec (m : Manager)
    (roomId txnId coordinator now : String) :
    (((Manager.prepareForDeletion m roomId txnId coordinator now).2.vote
        = "ABORT" ∧
      ((Manager.prepareForDeletion m roomId txnId coordinator
        now).2.reason).isSome) ↔
      ∃ room, alookup m.rooms roomId = some room ∧
        room.state ≠ RoomState.ACTIVE) ∧
    ((¬ ∃ room, alookup m.rooms roomId = some room ∧
        room.state ≠ RoomState.ACTIVE) →
      (Manager.prepareForDeletion m roomId txnId coordinator now).2.vote
        = "READY") ∧
    (alookup m.rooms roomId = none →
      Manager.prepareForDeletion m roomId txnId coordinator now =
        (m, { vote := "READY", node_id := m.node_id
              transaction_id := txnId, reason := none })) ∧
    (∀ room, alookup m.rooms roomId = some room →
      room.state = RoomState.ACTIVE →
      (Manager.prepareForDeletion m roomId txnId coordinator now).2.vote
        = "READY" ∧
      alookup (Manager.prepareForDeletion m roomId txnId coordinator
        now).1.rooms roomId =
        some { room with state := RoomState.DELETION_PENDING } ∧
      alookup (Manager.prepareForDeletion m roomId txnId coordinator
        now).1.prepared_transactions txnId =
        some { transaction_id := txnId, room_id := roomId
               coordinator := coordinator, vote := "READY"
               prepared_at := now }) := by
  cases h : alookup m.rooms roomId with
  | none =>
    refine ⟨?_, ?_, ?_, ?_⟩
    · simp [Manager.prepareForDeletion, h]
    · intro _; simp [Manager.prepareForDeletion, h]
    · intro _; simp [Manager.prepareForDeletion, h]
    · intro room hr; exact Option.noConfusion hr
  | some room =>
    by_cases hs : room.state = RoomState.ACTIVE
    · refine ⟨?_, ?_, ?_, ?_⟩
      · simp [Manager.prepareForDeletion, h, hs]
      · intro _; simp [Manager.prepareForDeletion, h, hs]
      · intro hn; exact Option.noConfusion hn
      · intro room' hr hs'
        have he : room = room' := Option.some.inj hr
        subst he
        refine ⟨by simp [Manager.prepareForDeletion, h, hs], ?_, ?_⟩
        · simp only [Manager.prepareForDeletion, h]
          rw [if_neg (by simp [hs])]
          exact alookup_aupdate_self ..
        · simp only [Manager.prepareForDeletion, h]
          rw [if_neg (by simp [hs])]
          exact alookup_aupdate_self ..
    · refine ⟨?_, ?_, ?_, ?_⟩
      · simp [Manager.prepareForDeletion, h, hs]
      · intro hno; exact absurd ⟨room, rfl, hs⟩ hno
      · intro hn; exact Option.noConfusion hn
      · intro room' hr hs'
        have he : room = room' := Option.some.inj hr
        subst he
        exact absurd hs' hs

/-- Witness for C6: a known ACTIVE room is marked DELETION_PENDING by a
READY vote. -/
theorem prepareForDeletion_spec_witness :
    (Manager.prepareForDeletion mgrActive "rid" "tx1" "coord" "t7").2.vote
      = "READY" :=
  ((prepareForDeletion_spec mgrActive "rid" "tx1" "coord" "t7").2.2.2 roomActive
    (by decide) (by decide)).1

/-!  C7: deletion by a non-creator. -/

/-- The concrete ACTIVE room for the C7 counterexample; its creator is
"alice". -/
def roomC7 : Room :=
  { room_id := "rid", room_name := "r", description := none
    creator_id := "alice", admin_node := "n1"
    members := ["alice"], created_at := "t0"
    message_counter := 0, messages := []
    state := RoomState.ACTIVE
    member_info := [] }

/-- The concrete manager for the C7 counterexample. -/
def mgrC7 : Manager :=
  { node_id := "n1", rooms := [("rid", roomC7)]
    deletion_transactions := [], prepared_transactions := []
    node_health := [] }

/-- Counterexample to C7: a `delete_room` request whose username is the
empty string differs from the creator "alice", yet it is answered with
`INVALID_REQUEST` (the missing-field check fires before the creator
check), not `UNAUTHORIZED`. -/
theorem handleDeleteRoom_empty_username_cex :
    alookup mgrC7.rooms "rid" = some roomC7 ∧
    "" ≠ roomC7.creator_id ∧
    (handleDeleteRoom mgrC7 [] (some "rid") (some "") "tx" "t" []).2 =
      DeleteRoomResponse.failed "rid" "Missing room_id or username"
        "INVALID_REQUEST" none ∧
    ∀ reason txid,
      (handleDeleteRoom mgrC7 [] (some "rid") (some "") "tx" "t" []).2 ≠
        DeleteRoomResponse.failed "rid" reason "UNAUTHORIZED" txid := by
  refine ⟨by decide, by decide, by decide, ?_⟩
  intro reason txid hcontra
  have hres : (handleDeleteRoom mgrC7 [] (some "rid") (some "") "tx" "t"
      []).2 = DeleteRoomResponse.failed "rid" "Missing room_id or username"
      "INVALID_REQUEST" none := by decide
  rw [hres] at hcontra
  have : "INVALID_REQUEST" = "UNAUTHORIZED" := by
    injection hcontra with h1 h2 h3 h4
  exact absurd this (by decide)

/-- C7 amended: for every `delete_room` request whose `room_id` and
`username` are present (non-empty) and whose username differs from the
room's creator, the endpoint answers `delete_room_failed` with
error code `UNAUTHORIZED`, starts no transaction, and leaves the
manager state (hence the room) entirely unchanged.  A request with an
absent or empty username is instead answered `INVALID_REQUEST` by the
missing-field check. -/
theorem handleDeleteRoom_unauthorized (m : Manager)
    (registry : List (String × String))
    (roomId username txnUuid now : String)
    (votes : List (String × Option PrepareVote)) (room : Room)
    (hrid : roomId ≠ "") (huser : username ≠ "")
    (hroom : alookup m.rooms roomId = some room)
    (hne : username ≠ room.creator_id) :
    handleDeleteRoom m registry (some roomId) (some username) txnUuid now
      votes =
    (m, DeleteRoomResponse.failed roomId
      "Only the room creator can delete the room" "UNAUTHORIZED" none) := by
  simp only [handleDeleteRoom, truthy, strOrEmpty]
  rw [if_neg (by simp [hrid, huser])]
  simp only [Manager.getRoom, hroom]
  rw [if_pos (fun he => hne he.symm)]

/-- Witness for C7's amended theorem at a concrete state. -/
theorem handleDeleteRoom_unauthorized_witness :
    (handleDeleteRoom mgrC7 [] (some "rid") (some "bob") "tx" "t" []).2 =
      DeleteRoomResponse.failed "rid"
        "Only the room creator can delete the room" "UNAUTHORIZED" none := by
  rw [handleDeleteRoom_unauthorized mgrC7 [] "rid" "bob" "tx" "t" [] roomC7
    (by decide) (by decide) (by decide) (by decide)]

/-!  C1: the sequencer in `RoomStateManager.add_message`. -/

/-- The message built by a successful `add_message` call. -/
def builtMessage (roomId username content uuid now : String)
    (counter : Nat) : ServerMessage :=
  { message_id := uuid
    room_id := roomId
    username := username
    content := content
    sequence_number := counter + 1
    timestamp := now }

/-- The room record after a successful `add_message`: counter bumped,
message appended, one entry popped from the head when over the cap. -/
def roomAfterAdd (room : Room) (msg : ServerMessage) (maxM : Nat) : Room :=
  { room with
    message_counter := room.message_counter + 1
    messages :=
      if (room.messages ++ [msg]).length > maxM then
        (room.messages ++ [msg]).drop 1
      else room.messages ++ [msg] }

/-- Exact result of a successful `add_message` call. -/
theorem addMessage_success_eq (m : Manager)
    (roomId username content uuid now : String) (maxM : Nat) (room : Room)
    (hroom : alookup m.rooms roomId = some room)
    (hmem : username ∈ room.members) :
    Manager.addMessage m roomId username content uuid now maxM =
      ({ m with
          rooms :=
            aupdate m.rooms roomId
              (roomAfterAdd room
                (builtMessage roomId username content uuid now
                  room.message_counter)
                maxM) },
        some (builtMessage roomId username content uuid now
          room.message_counter)) := by
  simp [Manager.addMessage, hroom, hmem, builtMessage, roomAfterAdd]

/-- Exact result of a failing `add_message` call: no state change. -/
theorem addMessage_fail_eq (m : Manager)
    (roomId username content uuid now : String) (maxM : Nat)
    (h : alookup m.rooms roomId = none ∨
      ∃ room, alookup m.rooms roomId = some room ∧
        username ∉ room.members) :
    Manager.addMessage m roomId username content uuid now maxM = (m, none) := by
  rcases h with h | ⟨room, hroom, hmem⟩
  · simp [Manager.addMessage, h]
  · simp [Manager.addMessage, hroom, hmem]

/-- The successful returns of a call sequence carry the consecutive
sequence numbers following the room's counter. -/
theorem runAddMessages_seq_range (calls : List AddCall) (m : Manager)
    (roomId : String) (room : Room)
    (hroom : alookup m.rooms roomId = some room) :
    ((runAddMessages m roomId calls).2).map
        (fun msg => msg.sequence_number) =
      List.range' (room.message_counter + 1)
        ((runAddMessages m roomId calls).2).length := by
  induction calls generalizing m room with
  | nil => simp [runAddMessages]
  | cons c rest ih =>
    by_cases hmem : c.username ∈ room.members
    · have hsucc := addMessage_success_eq m roomId c.username c.content
        c.uuid c.now 100 room hroom hmem
      have hlook : alookup (Manager.addMessage m roomId c.username c.content
          c.uuid c.now 100).1.rooms roomId = some
          (roomAfterAdd room
            (builtMessage roomId c.username c.content c.uuid c.now
              room.message_counter) 100) := by
        rw [hsucc]
        exact alookup_aupdate_self ..
      have ihx := ih _ _ hlook
      simp only [roomAfterAdd] at ihx
      simp only [runAddMessages, hsucc, List.map_cons, List.length_cons]
      simp only [hsucc] at ihx
      rw [List.range'_succ]
      simp only [builtMessage, List.map] at ihx ⊢
      rw [ihx]
    · have hfail := addMessage_fail_eq m roomId c.username c.content
        c.uuid c.now 100 (Or.inr ⟨room, hroom, hmem⟩)
      have ihx := ih m room hroom
      simp only [runAddMessages, hfail]
      exact ihx

/-- C1: a successful `add_message` increments the room counter by one,
returns the message stamped with the drawn UUID, the clock reading and
`sequence_number = new counter`, and appends it to the buffer, popping
one entry from the head when the buffer exceeds `max_messages`
(default 100); and from a freshly created room (counter 0) any sequence
of calls hands out exactly the gap-free sequence numbers 1, 2, 3, … to
its successful calls. -/
theorem addMessage_sequencer_spec :
    (∀ (m : Manager) (roomId username content uuid now : String)
      (maxM : Nat) (room : Room),
      alookup m.rooms roomId = some room →
      username ∈ room.members →
      ∃ msg,
        (Manager.addMessage m roomId username content uuid now maxM).2 =
          some msg ∧
        msg = { message_id := uuid, room_id := roomId, username := username
                content := content
                sequence_number := room.message_counter + 1
                timestamp := now } ∧
        ∃ room',
          alookup (Manager.addMessage m roomId username content uuid now
            maxM).1.rooms roomId = some room' ∧
          room'.message_counter = room.message_counter + 1 ∧
          room'.messages =
            (if (room.messages ++ [msg]).length > maxM then
              (room.messages ++ [msg]).drop 1
             else room.messages ++ [msg])) ∧
    (∀ (m : Manager) (roomName creatorId roomId now : String)
      (description : Option String) (calls : List AddCall),
      ((runAddMessages
          (Manager.createRoom m roomName creatorId description roomId
            now).1 roomId calls).2).map
        (fun msg => msg.sequence_number) =
      List.range' 1
        ((runAddMessages
          (Manager.createRoom m roomName creatorId description roomId
            now).1 roomId calls).2).length) := by
  constructor
  · intro m roomId username content uuid now maxM room hroom hmem
    refine ⟨builtMessage roomId username content uuid now
      room.message_counter, ?_, rfl, ?_⟩
    · rw [addMessage_success_eq m roomId username content uuid now maxM room
        hroom hmem]
    · refine ⟨roomAfterAdd room
        (builtMessage roomId username content uuid now
          room.message_counter) maxM, ?_, rfl, rfl⟩
      rw [addMessage_success_eq m roomId username content uuid now maxM room
        hroom hmem]
      exact alookup_aupdate_self ..
  · intro m roomName creatorId roomId now description calls
    have hlook : alookup (Manager.createRoom m roomName creatorId
        description roomId now).1.rooms roomId =
        some (Manager.createRoom m roomName creatorId description roomId
          now).2 := by
      simp only [Manager.createRoom]
      exact alookup_aupdate_self ..
    exact runAddMessages_seq_range calls _ roomId _ hlook

/-- Witness for C1: the first message admitted to a one-member room
with counter 0 gets sequence number 1. -/
theorem addMessage_sequencer_spec_witness :
    (Manager.addMessage mgrActive "rid" "alice" "hi" "u1" "t1" 100).2 =
      some { message_id := "u1", room_id := "rid", username := "alice"
             content := "hi", sequence_number := 1, timestamp := "t1" } := by
  obtain ⟨msg, h1, h2, -⟩ := addMessage_sequencer_spec.1 mgrActive "rid"
    "alice" "hi" "u1" "t1" 100 roomActive (by decide) (by decide)
  rw [h2] at h1
  exact h1

/-!  C5: the 2PC rollback path. -/

theorem keys_aupdate {α : Type} (l : List (String × α)) (k : String)
    (v : α) :
    (aupdate l k v).map Prod.fst =
      if k ∈ l.map Prod.fst then l.map Prod.fst
      else l.map Prod.fst ++ [k] := by
  induction l with
  | nil => simp [aupdate]
  | cons p rest ih =>
    by_cases h : p.1 = k
    · simp [aupdate, h]
    · have hne : ¬ k = p.1 := fun he => h he.symm
      simp only [aupdate, if_neg h, List.map_cons, ih, List.mem_cons, hne,
        false_or]
      by_cases hm : k ∈ rest.map Prod.fst
      · simp [hm]
      · simp [hm]

theorem nodup_keys_aupdate {α : Type} (l : List (String × α)) (k : String)
    (v : α) (h : (l.map Prod.fst).Nodup) :
    ((aupdate l k v).map Prod.fst).Nodup := by
  rw [keys_aupdate]
  by_cases hm : k ∈ l.map Prod.fst
  · simpa [hm] using h
  · simp only [hm, if_false]
    exact List.Nodup.append h (List.nodup_singleton k)
      (fun a ha hk => hm (by rwa [List.mem_singleton.mp hk] at ha))

theorem recordVote_rooms (m : Manager) (t n v : String) :
    (Manager.recordVote m t n v).1.rooms = m.rooms := by
  cases h1 : alookup m.deletion_transactions t with
  | none => simp [Manager.recordVote, h1]
  | some txn =>
    cases h2 : alookup txn.votes n with
    | none => simp [Manager.recordVote, h1, h2]
    | some w => simp [Manager.recordVote, h1, h2]

theorem recordVote_txn (m : Manager) (t n v : String)
    (txn : DeletionTransaction)
    (h : alookup m.deletion_transactions t = some txn) :
    ∃ txn',
      alookup (Manager.recordVote m t n v).1.deletion_transactions t =
        some txn' ∧
      txn'.room_id = txn.room_id ∧
      txn'.participants = txn.participants := by
  cases h2 : alookup txn.votes n with
  | none =>
    refine ⟨txn, ?_, rfl, rfl⟩
    simp [Manager.recordVote, h, h2]
  | some w =>
    refine ⟨{ txn with votes := aupdate txn.votes n (some v) }, ?_, rfl, rfl⟩
    simp only [Manager.recordVote, h, h2]
    exact alookup_aupdate_self ..

theorem recordVote_keys (m : Manager) (t n v : String)
    (h : (m.deletion_transactions.map Prod.fst).Nodup) :
    (((Manager.recordVote m t n v).1.deletion_transactions).map
      Prod.fst).Nodup := by
  cases h1 : alookup m.deletion_transactions t with
  | none => simpa [Manager.recordVote, h1] using h
  | some txn =>
    cases h2 : alookup txn.votes n with
    | none => simpa [Manager.recordVote, h1, h2] using h
    | some w =>
      simp only [Manager.recordVote, h1, h2]
      exact nodup_keys_aupdate _ _ _ h

theorem voteStep_rooms (t : String) (acc : Manager × Bool × Option String)
    (nv : String × Option PrepareVote) :
    (voteStep t acc nv).1.rooms = acc.1.rooms := by
  rcases nv with ⟨nid, vr⟩
  cases vr with
  | none => simp [voteStep, recordVote_rooms]
  | some pv =>
    by_cases hv : pv.vote = "ABORT" <;>
      simp [voteStep, hv, recordVote_rooms]

theorem voteStep_txn (t : String) (acc : Manager × Bool × Option String)
    (nv : String × Option PrepareVote) (rid : String)
    (ps : List String)
    (h : ∃ txn, alookup acc.1.deletion_transactions t = some txn ∧
      txn.room_id = rid ∧ txn.participants = ps) :
    ∃ txn, alookup (voteStep t acc nv).1.deletion_transactions t =
      some txn ∧ txn.room_id = rid ∧ txn.participants = ps := by
  obtain ⟨txn, htxn, h1, h2⟩ := h
  rcases nv with ⟨nid, vr⟩
  cases vr with
  | none =>
    obtain ⟨txn', ht', f1, f2⟩ := recordVote_txn acc.1 t nid "ABORT" txn htxn
    exact ⟨txn', by simpa [voteStep] using ht', f1.trans h1, f2.trans h2⟩
  | some pv =>
    by_cases hv : pv.vote = "ABORT"
    · obtain ⟨txn', ht', f1, f2⟩ := recordVote_txn acc.1 t nid "ABORT" txn
        htxn
      exact ⟨txn', by simpa [voteStep, hv] using ht', f1.trans h1,
        f2.trans h2⟩
    · obtain ⟨txn', ht', f1, f2⟩ := recordVote_txn acc.1 t nid "READY" txn
        htxn
      exact ⟨txn', by simpa [voteStep, hv] using ht', f1.trans h1,
        f2.trans h2⟩

theorem voteStep_keys (t : String) (acc : Manager × Bool × Option String)
    (nv : String × Option PrepareVote)
    (h : (acc.1.deletion_transactions.map Prod.fst).Nodup) :
    (((voteStep t acc nv).1.deletion_transactions).map Prod.fst).Nodup := by
  rcases nv with ⟨nid, vr⟩
  cases vr with
  | none => simpa [voteStep] using recordVote_keys acc.1 t nid "ABORT" h
  | some pv =>
    by_cases hv : pv.vote = "ABORT"
    · simpa [voteStep, hv] using recordVote_keys acc.1 t nid "ABORT" h
    · simpa [voteStep, hv] using recordVote_keys acc.1 t nid "READY" h

theorem voteStep_flag_false (t : String)
    (acc : Manager × Bool × Option String)
    (nv : String × Option PrepareVote) (h : acc.2.1 = false) :
    (voteStep t acc nv).2.1 = false := by
  rcases nv with ⟨nid, vr⟩
  cases vr with
  | none => simp [voteStep]
  | some pv =>
    by_cases hv : pv.vote = "ABORT" <;> simp [voteStep, hv, h]

/-- A PREPARE response that is a timeout or an ABORT vote. -/
def nonReadyVote (nv : String × Option PrepareVote) : Prop :=
  nv.2 = none ∨ ∃ v, nv.2 = some v ∧ v.vote = "ABORT"

theorem foldl_voteStep_rooms (t : String)
    (votes : List (String × Option PrepareVote))
    (acc : Manager × Bool × Option String) :
    ((votes.foldl (voteStep t) acc).1).rooms = acc.1.rooms := by
  induction votes generalizing acc with
  | nil => rfl
  | cons nv rest ih => rw [List.foldl_cons, ih, voteStep_rooms]

theorem foldl_voteStep_txn (t : String)
    (votes : List (String × Option PrepareVote))
    (acc : Manager × Bool × Option String) (rid : String) (ps : List String)
    (h : ∃ txn, alookup acc.1.deletion_transactions t = some txn ∧
      txn.room_id = rid ∧ txn.participants = ps) :
    ∃ txn,
      alookup ((votes.foldl (voteStep t) acc).1).deletion_transactions t =
        some txn ∧ txn.room_id = rid ∧ txn.participants = ps := by
  induction votes generalizing acc with
  | nil => exact h
  | cons nv rest ih =>
    rw [List.foldl_cons]
    exact ih _ (voteStep_txn t acc nv rid ps h)

theorem foldl_voteStep_keys (t : String)
    (votes : List (String × Option PrepareVote))
    (acc : Manager × Bool × Option String)
    (h : (acc.1.deletion_transactions.map Prod.fst).Nodup) :
    (((votes.foldl (voteStep t) acc).1).deletion_transactions.map
      Prod.fst).Nodup := by
  induction votes generalizing acc with
  | nil => exact h
  | cons nv rest ih =>
    rw [List.foldl_cons]
    exact ih _ (voteStep_keys t acc nv h)

theorem foldl_voteStep_flag_false (t : String)
    (votes : List (String × Option PrepareVote))
    (acc : Manager × Bool × Option String) (h : acc.2.1 = false) :
    ((votes.foldl (voteStep t) acc).2).1 = false := by
  induction votes generalizing acc with
  | nil => exact h
  | cons nv rest ih =>
    rw [List.foldl_cons]
    exact ih _ (voteStep_flag_false t acc nv h)

theorem foldl_voteStep_bad_flag (t : String)
    (votes : List (String × Option PrepareVote))
    (acc : Manager × Bool × Option String)
    (h : ∃ nv ∈ votes, nonReadyVote nv) :
    ((votes.foldl (voteStep t) acc).2).1 = false := by
  induction votes generalizing acc with
  | nil => obtain ⟨nv, hm, -⟩ := h; cases hm
  | cons nv0 rest ih =>
    obtain ⟨nv, hm, hbad⟩ := h
    rw [List.foldl_cons]
    rcases List.mem_cons.mp hm with he | hrest
    · subst he
      apply foldl_voteStep_flag_false
      rcases hbad with h0 | ⟨v, hv, habort⟩
      · rcases nv with ⟨nid, vr⟩
        simp only at h0
        subst h0
        simp [voteStep]
      · rcases nv with ⟨nid, vr⟩
        simp only at hv
        subst hv
        simp [voteStep, habort]
    · exact ih _ ⟨nv, hrest, hbad⟩

/-- The reason-tracking step of the vote loop, in the claim's terms:
the abort reason retained afterwards (the code overwrites it on every
non-READY vote, so the last one wins). -/
def reasonStep (acc : Option String) (nv : String × Option PrepareVote) :
    Option String :=
  match nv.2 with
  | none => some ("Node " ++ nv.1 ++ " timed out")
  | some v =>
    if v.vote = "ABORT" then
      some (v.reason.getD ("Node " ++ nv.1 ++ " voted ABORT"))
    else acc

/-- The abort reason of the LAST non-READY vote in iteration order
(spec comparison definition for the corrected C5). -/
def lastNonReadyReason (votes : List (String × Option PrepareVote)) :
    Option String :=
  votes.foldl reasonStep none

theorem foldl_voteStep_reason (t : String)
    (votes : List (String × Option PrepareVote))
    (acc : Manager × Bool × Option String) :
    ((votes.foldl (voteStep t) acc).2).2 =
      votes.foldl reasonStep acc.2.2 := by
  induction votes generalizing acc with
  | nil => rfl
  | cons nv rest ih =>
    rw [List.foldl_cons, List.foldl_cons, ih]
    congr 1
    rcases nv with ⟨nid, vr⟩
    cases vr with
    | none => rfl
    | some pv =>
      by_cases hv : pv.vote = "ABORT" <;> simp [voteStep, reasonStep, hv]

theorem executeTwoPC_rollback_eq (m : Manager)
    (registry : List (String × String)) (txn : DeletionTransaction)
    (votes : List (String × Option PrepareVote))
    (hflag : (processVotes m txn.transaction_id votes).2.1 = false) :
    executeTwoPCDeletion m registry txn votes =
      ((Manager.rollbackDeletion
          (Manager.transitionToRollback
            (processVotes m txn.transaction_id votes).1
            txn.transaction_id).1
          txn.transaction_id).1,
        { success := false
          reason := (processVotes m txn.transaction_id votes).2.2
          sends := sendTargets registry txn.participants }) := by
  simp only [executeTwoPCDeletion, hflag]
  simp

/-- C5 amended: when some participant votes ABORT or times out in
PREPARE, the coordinator rolls the transaction back: the 2PC driver
reports failure, sends rollback to every participant (each having a
registry address), restores the coordinator's copy of the room to
ACTIVE without deleting it, removes the transaction from the
transaction table, and the reported failure reason is the LAST observed
abort/timeout reason in vote order (the loop overwrites earlier
ones). -/
theorem executeTwoPC_abort_rolls_back (m : Manager)
    (registry : List (String × String)) (txn : DeletionTransaction)
    (votes : List (String × Option PrepareVote)) (room : Room)
    (htxn : alookup m.deletion_transactions txn.transaction_id = some txn)
    (hroom : alookup m.rooms txn.room_id = some room)
    (hnd : (m.deletion_transactions.map Prod.fst).Nodup)
    (haddr : ∀ p ∈ txn.participants,
      (alookup registry p).isSome = true)
    (hbad : ∃ nv ∈ votes, nonReadyVote nv) :
    (executeTwoPCDeletion m registry txn votes).2.success = false ∧
    (executeTwoPCDeletion m registry txn votes).2.reason =
      lastNonReadyReason votes ∧
    (executeTwoPCDeletion m registry txn votes).2.sends =
      txn.participants ∧
    alookup (executeTwoPCDeletion m registry txn votes).1.rooms
      txn.room_id = some { room with state := RoomState.ACTIVE } ∧
    alookup (executeTwoPCDeletion m registry txn
      votes).1.deletion_transactions txn.transaction_id = none := by
  have hflag : (processVotes m txn.transaction_id votes).2.1 = false :=
    foldl_voteStep_bad_flag txn.transaction_id votes (m, true, none) hbad
  have hrooms1 : (processVotes m txn.transaction_id votes).1.rooms =
      m.rooms :=
    foldl_voteStep_rooms txn.transaction_id votes (m, true, none)
  obtain ⟨txn1, htxn1f, hrid1, hps1⟩ :=
    foldl_voteStep_txn txn.transaction_id votes (m, true, none)
      txn.room_id txn.participants ⟨txn, htxn, rfl, rfl⟩
  have htxn1 : alookup (processVotes m txn.transaction_id
      votes).1.deletion_transactions txn.transaction_id = some txn1 :=
    htxn1f
  have hnd1 : (((processVotes m txn.transaction_id
      votes).1.deletion_transactions).map Prod.fst).Nodup :=
    foldl_voteStep_keys txn.transaction_id votes (m, true, none) hnd
  have hlookroom1 : alookup (processVotes m txn.transaction_id
      votes).1.rooms txn1.room_id = some room := by
    rw [hrid1, hrooms1]; exact hroom
  rw [executeTwoPC_rollback_eq m registry txn votes hflag]
  have h2rooms : (Manager.transitionToRollback
      (processVotes m txn.transaction_id votes).1
      txn.transaction_id).1.rooms =
      aupdate (processVotes m txn.transaction_id votes).1.rooms
        txn1.room_id { room with state := RoomState.ROLLING_BACK } := by
    simp only [Manager.transitionToRollback, htxn1, hlookroom1]
  have h2dt : (Manager.transitionToRollback
      (processVotes m txn.transaction_id votes).1
      txn.transaction_id).1.deletion_transactions =
      aupdate (processVotes m txn.transaction_id
          votes).1.deletion_transactions
        txn.transaction_id
        { txn1 with state := TransactionState.ROLLBACK } := by
    simp only [Manager.transitionToRollback, htxn1, hlookroom1]
  have h3txn : alookup (Manager.transitionToRollback
      (processVotes m txn.transaction_id votes).1
      txn.transaction_id).1.deletion_transactions txn.transaction_id =
      some { txn1 with state := TransactionState.ROLLBACK } := by
    rw [h2dt]; exact alookup_aupdate_self ..
  have h3room : alookup (Manager.transitionToRollback
      (processVotes m txn.transaction_id votes).1
      txn.transaction_id).1.rooms txn1.room_id =
      some { room with state := RoomState.ROLLING_BACK } := by
    rw [h2rooms]; exact alookup_aupdate_self ..
  refine ⟨rfl, ?_, ?_, ?_, ?_⟩
  · exact foldl_voteStep_reason txn.transaction_id votes (m, true, none)
  · exact List.filter_eq_self.mpr haddr
  · have h4 : (Manager.rollbackDeletion
        (Manager.transitionToRollback
          (processVotes m txn.transaction_id votes).1
          txn.transaction_id).1 txn.transaction_id).1.rooms =
        aupdate (Manager.transitionToRollback
            (processVotes m txn.transaction_id votes).1
            txn.transaction_id).1.rooms txn1.room_id
          { room with state := RoomState.ACTIVE } := by
      simp only [Manager.rollbackDeletion, h3txn, h3room]
    rw [h4, ← hrid1]
    exact alookup_aupdate_self ..
  · have h5 : (Manager.rollbackDeletion
        (Manager.transitionToRollback
          (processVotes m txn.transaction_id votes).1
          txn.transaction_id).1 txn.transaction_id).1.deletion_transactions
        = aremove (Manager.transitionToRollback
            (processVotes m txn.transaction_id votes).1
            txn.transaction_id).1.deletion_transactions
          txn.transaction_id := by
      simp only [Manager.rollbackDeletion, h3txn, h3room]
    rw [h5, h2dt]
    exact alookup_aremove_self _ _ (nodup_keys_aupdate _ _ _ hnd1)

/-- The concrete pending room for the C5 counterexample. -/
def roomC5 : Room :=
  { room_id := "rid", room_name := "r", description := none
    creator_id := "alice", admin_node := "n1"
    members := ["alice"], created_at := "t0"
    message_counter := 0, messages := []
    state := RoomState.DELETION_PENDING
    member_info := [] }

/-- The concrete deletion transaction for the C5 counterexample. -/
def txnC5 : DeletionTransaction :=
  { transaction_id := "tx1", room_id := "rid"
    state := TransactionState.PREPARE
    participants := ["n2", "n3"]
    votes := [("n2", none), ("n3", none)]
    start_time := "t0", timeout := 5 }

/-- The concrete coordinator state for the C5 counterexample. -/
def mgrC5 : Manager :=
  { node_id := "n1", rooms := [("rid", roomC5)]
    deletion_transactions := [("tx1", txnC5)]
    prepared_transactions := [], node_health := [] }

/-- The registry for the C5 counterexample and witness. -/
def regC5 : List (String × String) :=
  [("n2", "http2"), ("n3", "http3")]

/-- The PREPARE responses for the C5 counterexample: both participants
vote ABORT, with distinct reasons. -/
def votesC5 : List (String × Option PrepareVote) :=
  [("n2", some { vote := "ABORT", reason := some "n2 busy" }),
   ("n3", some { vote := "ABORT", reason := some "n3 busy" })]

/-- Counterexample to C5 as stated: with two ABORT votes observed in
order "n2 busy" then "n3 busy", the coordinator reports "n3 busy" — the
LAST observed abort reason, not the first. -/
theorem executeTwoPC_first_reason_cex :
    (executeTwoPCDeletion mgrC5 regC5 txnC5 votesC5).2.reason =
      some "n3 busy" ∧
    (executeTwoPCDeletion mgrC5 regC5 txnC5 votesC5).2.reason ≠
      some "n2 busy" := by
  constructor
  · rfl
  · intro h
    have : ("n3 busy" : String) = "n2 busy" := by
      have h2 : (some "n3 busy" : Option String) = some "n2 busy" := by
        rw [← h]; rfl
      exact Option.some.inj h2
    exact absurd this (by decide)

/-- Witness for C5's amended theorem at the concrete counterexample
state: failure is reported and the reason is the last observed one. -/
theorem executeTwoPC_abort_rolls_back_witness :
    (executeTwoPCDeletion mgrC5 regC5 txnC5 votesC5).2.success = false ∧
    (executeTwoPCDeletion mgrC5 regC5 txnC5 votesC5).2.reason =
      lastNonReadyReason votesC5 := by
  have h := executeTwoPC_abort_rolls_back mgrC5 regC5 txnC5 votesC5 roomC5
    (by decide) (by decide) (by decide)
    (by decide)
    ⟨("n2", some { vote := "ABORT", reason := some "n2 busy" }),
      by decide, Or.inr ⟨_, rfl, rfl⟩⟩
  exact ⟨h.1, h.2.1⟩

/-!  C4: `get_new_messages` and `has_gap`. -/

/-- The longest prefix of a pending list whose sequence numbers are
`expected, expected+1, …` consecutively (the claim's description of the
returned list). -/
def consecPrefix (expected : Int) : List StoredMsg → List StoredMsg
  | [] => []
  | m :: rest =>
    if m.seq = expected then m :: consecPrefix (expected + 1) rest else []

theorem collectDisplayable_eq_consecPrefix (msgs : List StoredMsg)
    (last : Int)
    (hsort : msgs.Pairwise (fun a c => a.seq < c.seq))
    (hgt : ∀ m ∈ msgs, last < m.seq) :
    collectDisplayable (last + 1) msgs = consecPrefix (last + 1) msgs := by
  induction msgs generalizing last with
  | nil => rfl
  | cons m rest ih =>
    rcases List.pairwise_cons.mp hsort with ⟨hm, hrest⟩
    by_cases h : m.seq = last + 1
    · have hr : ∀ x ∈ rest, (last + 1) < x.seq := by
        intro x hx
        have := hm x hx
        omega
      simp only [collectDisplayable, consecPrefix, if_pos h]
      rw [ih (last + 1) hrest hr]
    · have hgtm : last < m.seq := hgt m (List.mem_cons_self m rest)
      have hgap : m.seq > last + 1 := by omega
      simp only [collectDisplayable, consecPrefix, if_neg h, if_pos hgap]

theorem collectDisplayable_length_le (expected : Int)
    (msgs : List StoredMsg) :
    (collectDisplayable expected msgs).length ≤ msgs.length := by
  induction msgs generalizing expected with
  | nil => simp [collectDisplayable]
  | cons m rest ih =>
    simp only [collectDisplayable]
    by_cases h : m.seq = expected
    · simp only [if_pos h, List.length_cons]
      exact Nat.succ_le_succ (ih (expected + 1))
    · by_cases h2 : m.seq > expected
      · simp [if_neg h, if_pos h2]
      · simp only [if_neg h, if_neg h2]
        exact Nat.le_succ_of_le (ih expected)

theorem lastSeqD_getLast (l : List StoredMsg) (d : Int) (mlast : StoredMsg)
    (h : l.getLast? = some mlast) : lastSeqD l d = mlast.seq := by
  induction l with
  | nil => cases h
  | cons m rest ih =>
    cases rest with
    | nil =>
      simp only [List.getLast?_singleton] at h
      cases h
      rfl
    | cons m2 rest2 =>
      rw [List.getLast?_cons_cons] at h
      simp only [lastSeqD]
      exact ih h

theorem moveIds_seen_sublist (r : List StoredMsg)
    (acc : List String × List String × List String) :
    (r.foldl moveIdStep acc).1.Sublist acc.1 := by
  induction r generalizing acc with
  | nil => exact List.Sublist.refl _
  | cons m rest ih =>
    rw [List.foldl_cons]
    refine (ih _).trans ?_
    rcases m with ⟨mid, seq, content⟩
    cases mid with
    | none => exact List.Sublist.refl _
    | some s =>
      by_cases hs : s = ""
      · simp only [moveIdStep, if_pos hs]
        exact List.Sublist.refl _
      · simp only [moveIdStep, if_neg hs]
        exact List.erase_sublist ..

theorem moveIds_seen_nodup (r : List StoredMsg)
    (acc : List String × List String × List String)
    (h : acc.1.Nodup) : (r.foldl moveIdStep acc).1.Nodup :=
  (moveIds_seen_sublist r acc).nodup h

theorem moveIds_seen_removed (r : List StoredMsg)
    (acc : List String × List String × List String)
    (hnd : acc.1.Nodup) (s : String) (mm : StoredMsg) (hmm : mm ∈ r)
    (hid : mm.message_id = some s) (hs : s ≠ "") :
    s ∉ (r.foldl moveIdStep acc).1 := by
  induction r generalizing acc with
  | nil => cases hmm
  | cons m rest ih =>
    rw [List.foldl_cons]
    rcases List.mem_cons.mp hmm with he | hrest
    · subst he
      have hstep : (moveIdStep acc mm).1 = acc.1.erase s := by
        simp [moveIdStep, hid, hs]
      intro hcontra
      have hsub := (moveIds_seen_sublist rest (moveIdStep acc mm)).subset
        hcontra
      rw [hstep] at hsub
      exact ((List.Nodup.mem_erase_iff hnd).mp hsub).1 rfl
    · refine ih (moveIdStep acc m) ?_ hrest
      rcases m with ⟨mid, seq, content⟩
      cases mid with
      | none => exact hnd
      | some t =>
        by_cases ht : t = ""
        · simpa [moveIdStep, ht] using hnd
        · simpa [moveIdStep, ht] using hnd.erase t

theorem setAdd_mem (l : List String) (x y : String) (h : y ∈ l) :
    y ∈ setAdd l x := by
  unfold setAdd
  by_cases hx : x ∈ l <;> simp [hx, h]

theorem setAdd_mem_self (l : List String) (x : String) :
    x ∈ setAdd l x := by
  unfold setAdd
  by_cases hx : x ∈ l <;> simp [hx]

theorem moveIds_displayed_mono (r : List StoredMsg)
    (acc : List String × List String × List String) (s : String)
    (h : s ∈ acc.2.1) : s ∈ (r.foldl moveIdStep acc).2.1 := by
  induction r generalizing acc with
  | nil => exact h
  | cons m rest ih =>
    rw [List.foldl_cons]
    refine ih _ ?_
    rcases m with ⟨mid, seq, content⟩
    cases mid with
    | none => exact h
    | some t =>
      by_cases ht : t = ""
      · simpa [moveIdStep, ht] using h
      · simpa [moveIdStep, ht] using setAdd_mem acc.2.1 t s h

theorem moveIds_displayed_added (r : List StoredMsg)
    (acc : List String × List String × List String) (s : String)
    (mm : StoredMsg) (hmm : mm ∈ r) (hid : mm.message_id = some s)
    (hs : s ≠ "") : s ∈ (r.foldl moveIdStep acc).2.1 := by
  induction r generalizing acc with
  | nil => cases hmm
  | cons m rest ih =>
    rw [List.foldl_cons]
    rcases List.mem_cons.mp hmm with he | hrest
    · subst he
      refine moveIds_displayed_mono rest _ s ?_
      have : (moveIdStep acc mm).2.1 = setAdd acc.2.1 s := by
        simp [moveIdStep, hid, hs]
      rw [this]
      exact setAdd_mem_self ..
    · exact ih _ hrest

/-- The ids of a message list the Python code treats as truthy
(present and non-empty), in order. -/
def truthyIds (r : List StoredMsg) : List String :=
  r.filterMap (fun mm =>
    match mm.message_id with
    | some s => if s = "" then none else some s
    | none => none)

theorem moveIds_dlist_eq (r : List StoredMsg)
    (acc : List String × List String × List String) :
    (r.foldl moveIdStep acc).2.2 = acc.2.2 ++ truthyIds r := by
  induction r generalizing acc with
  | nil => simp [truthyIds]
  | cons m rest ih =>
    rw [List.foldl_cons, ih]
    rcases m with ⟨mid, seq, content⟩
    cases mid with
    | none => simp [moveIdStep, truthyIds, List.filterMap_cons]
    | some t =>
      by_cases ht : t = "" <;>
        simp [moveIdStep, truthyIds, List.filterMap_cons, ht]

theorem foldl_erase_mem (evs : List String) :
    ∀ (l : List String) (s : String), s ∈ l → (∀ v ∈ evs, v ≠ s) →
    s ∈ evs.foldl (fun acc x => acc.erase x) l := by
  induction evs with
  | nil => intro l s hmem _; exact hmem
  | cons v rest ih =>
    intro l s hmem hne
    rw [List.foldl_cons]
    refine ih (l.erase v) s ?_
      (fun w hw => hne w (List.mem_cons_of_mem v hw))
    have hvs : s ≠ v := fun he => hne v (List.mem_cons_self v rest)
      he.symm
    exact (List.mem_erase_of_ne hvs).mpr hmem

/-- C4 amended: under the documented buffer invariant (pending sorted
strictly by sequence number, every pending entry above
`last_displayed_seq`, duplicate-free seen set), `get_new_messages`
returns exactly the longest consecutive prefix of pending starting at
`last_displayed_seq + 1`, drops it from pending, advances
`last_displayed_seq` to the last returned sequence number (nothing
changes on an empty return), and removes the returned message ids from
the seen set; a returned id also ends up in the displayed set provided
the displayed FIFO list was within its cap, the call displays no more
ids than the cap, and the id is not already sitting in the displayed
FIFO list (otherwise the cap enforcement that follows the move can
evict it again).  `has_gap` is true iff pending is nonempty and its
head's sequence number exceeds `last_displayed_seq + 1`. -/
theorem getNewMessages_spec (b : MessageBuffer)
    (hsort : b.messages.Pairwise (fun a c => a.seq < c.seq))
    (hgt : ∀ msg ∈ b.messages, b.last_displayed_seq < msg.seq)
    (hnd : b.seen_ids.Nodup) :
    (b.getNewMessages).1 =
      consecPrefix (b.last_displayed_seq + 1) b.messages ∧
    (b.getNewMessages).2.messages =
      b.messages.drop (b.getNewMessages).1.length ∧
    ((b.getNewMessages).1 = [] → (b.getNewMessages).2 = b) ∧
    (∀ mlast, ((b.getNewMessages).1).getLast? = some mlast →
      (b.getNewMessages).2.last_displayed_seq = mlast.seq) ∧
    (∀ s mm, mm ∈ (b.getNewMessages).1 → mm.message_id = some s →
      s ≠ "" →
      s ∉ (b.getNewMessages).2.seen_ids) ∧
    ((truthyIds (b.getNewMessages).1).length ≤ b.max_displayed_ids →
      ∀ s mm, mm ∈ (b.getNewMessages).1 → mm.message_id = some s →
      s ≠ "" → s ∉ b.displayed_list →
      s ∈ (b.getNewMessages).2.displayed_set) ∧
    (b.hasGap = true ↔ ∃ m0 rest, b.messages = m0 :: rest ∧
      m0.seq > b.last_displayed_seq + 1) := by
  have hcoll : collectDisplayable (b.last_displayed_seq + 1) b.messages =
      consecPrefix (b.last_displayed_seq + 1) b.messages :=
    collectDisplayable_eq_consecPrefix b.messages b.last_displayed_seq
      hsort hgt
  have hgap : b.hasGap = true ↔ ∃ m0 rest, b.messages = m0 :: rest ∧
      m0.seq > b.last_displayed_seq + 1 := by
    cases hm : b.messages with
    | nil => simp [MessageBuffer.hasGap, hm]
    | cons m0 rest => simp [MessageBuffer.hasGap, hm]
  by_cases hemp :
      (collectDisplayable (b.last_displayed_seq + 1) b.messages).isEmpty
  · have hnil : collectDisplayable (b.last_displayed_seq + 1) b.messages
        = [] := List.isEmpty_iff.mp hemp
    have hres : b.getNewMessages =
        (collectDisplayable (b.last_displayed_seq + 1) b.messages, b) := by
      simp [MessageBuffer.getNewMessages, hemp]
    rw [hres]
    refine ⟨hcoll, ?_, fun _ => rfl, ?_, ?_, ?_, hgap⟩
    · rw [hnil]; rfl
    · intro mlast hml; rw [hnil] at hml; cases hml
    · intro s mm hmm; rw [hnil] at hmm; cases hmm
    · intro _ s mm hmm; rw [hnil] at hmm; cases hmm
  · have hres : b.getNewMessages =
        (collectDisplayable (b.last_displayed_seq + 1) b.messages,
          { b with
            last_displayed_seq :=
              lastSeqD (collectDisplayable (b.last_displayed_seq + 1)
                b.messages) b.last_displayed_seq
            messages := b.messages.drop
              (collectDisplayable (b.last_displayed_seq + 1)
                b.messages).length
            seen_ids := ((collectDisplayable (b.last_displayed_seq + 1)
              b.messages).foldl moveIdStep
              (b.seen_ids, b.displayed_set, b.displayed_list)).1
            displayed_set :=
              (enforceDisplayedIdsLimit
                ((collectDisplayable (b.last_displayed_seq + 1)
                  b.messages).foldl moveIdStep
                  (b.seen_ids, b.displayed_set, b.displayed_list)).2.1
                ((collectDisplayable (b.last_displayed_seq + 1)
                  b.messages).foldl moveIdStep
                  (b.seen_ids, b.displayed_set, b.displayed_list)).2.2
                b.max_displayed_ids).1
            displayed_list :=
              (enforceDisplayedIdsLimit
                ((collectDisplayable (b.last_displayed_seq + 1)
                  b.messages).foldl moveIdStep
                  (b.seen_ids, b.displayed_set, b.displayed_list)).2.1
                ((collectDisplayable (b.last_displayed_seq + 1)
                  b.messages).foldl moveIdStep
                  (b.seen_ids, b.displayed_set, b.displayed_list)).2.2
                b.max_displayed_ids).2 }) := by
      simp [MessageBuffer.getNewMessages, hemp]
    rw [hres]
    refine ⟨hcoll, rfl, ?_, ?_, ?_, ?_, hgap⟩
    · intro hnil
      exact absurd (List.isEmpty_iff.mpr hnil) hemp
    · intro mlast hml
      exact lastSeqD_getLast _ _ _ hml
    · intro s mm hmm hid hs
      exact moveIds_seen_removed _ _ hnd s mm hmm hid hs
    · intro hKraw s mm hmmraw hid hs hfreshs
      have hK : (truthyIds (collectDisplayable (b.last_displayed_seq + 1)
          b.messages)).length ≤ b.max_displayed_ids := hKraw
      have hmm : mm ∈ collectDisplayable (b.last_displayed_seq + 1)
          b.messages := hmmraw
      have hsinD : s ∈ ((collectDisplayable (b.last_displayed_seq + 1)
          b.messages).foldl moveIdStep
          (b.seen_ids, b.displayed_set, b.displayed_list)).2.1 :=
        moveIds_displayed_added _ _ s mm hmm hid hs
      have hdl : ((collectDisplayable (b.last_displayed_seq + 1)
          b.messages).foldl moveIdStep
          (b.seen_ids, b.displayed_set, b.displayed_list)).2.2 =
          b.displayed_list ++ truthyIds (collectDisplayable
            (b.last_displayed_seq + 1) b.messages) :=
        moveIds_dlist_eq _ _
      have hlenapp : (b.displayed_list ++ truthyIds (collectDisplayable
          (b.last_displayed_seq + 1) b.messages)).length =
          b.displayed_list.length + (truthyIds (collectDisplayable
            (b.last_displayed_seq + 1) b.messages)).length :=
        List.length_append ..
      unfold enforceDisplayedIdsLimit
      by_cases hover : ((collectDisplayable (b.last_displayed_seq + 1)
          b.messages).foldl moveIdStep
          (b.seen_ids, b.displayed_set, b.displayed_list)).2.2.length >
          b.max_displayed_ids
      · rw [if_pos hover]
        refine foldl_erase_mem _ _ s hsinD ?_
        intro v hv
        rw [hdl] at hv
        have htake : (b.displayed_list ++ truthyIds (collectDisplayable
            (b.last_displayed_seq + 1) b.messages)).take
            ((b.displayed_list ++ truthyIds (collectDisplayable
              (b.last_displayed_seq + 1) b.messages)).length -
              b.max_displayed_ids) =
            b.displayed_list.take
            ((b.displayed_list ++ truthyIds (collectDisplayable
              (b.last_displayed_seq + 1) b.messages)).length -
              b.max_displayed_ids) :=
          List.take_append_of_le_length (by omega)
        rw [htake] at hv
        exact fun he => hfreshs (he ▸ (List.take_subset _ _ hv))
      · rw [if_neg hover]
        exact hsinD

/-- The concrete buffer for the C4 counterexample: a buffer configured
with `max_displayed_ids = 1` whose displayed FIFO list sits at its cap
(the steady state after a first drain), with two consecutive pending
messages. -/
def bufX4 : MessageBuffer :=
  { messages := [⟨some "a", 2, "m2"⟩, ⟨some "b", 3, "m3"⟩]
    last_displayed_seq := 1
    max_buffer_size := 1000, max_displayed_ids := 1
    seen_ids := ["a", "b"]
    displayed_set := ["x"], displayed_list := ["x"] }

/-- Counterexample to C4 as stated: on `bufX4` (which satisfies the
documented invariant — pending sorted above `last_displayed_seq`,
displayed FIFO within its cap), `get_new_messages` returns the message
with id "a", removes "a" from the seen set, but "a" is NOT in the
displayed set afterwards: the FIFO-cap enforcement that follows the
move evicted it again, so the ids are not always moved into the
displayed set. -/
theorem getNewMessages_displayed_evict_cex :
    bufX4.messages.Pairwise (fun a c => a.seq < c.seq) ∧
    (∀ msg ∈ bufX4.messages, bufX4.last_displayed_seq < msg.seq) ∧
    bufX4.seen_ids.Nodup ∧
    bufX4.displayed_list.length ≤ bufX4.max_displayed_ids ∧
    (∃ mm ∈ (bufX4.getNewMessages).1, mm.message_id = some "a") ∧
    "a" ∉ (bufX4.getNewMessages).2.seen_ids ∧
    "a" ∉ (bufX4.getNewMessages).2.displayed_set := by
  decide

/-- The concrete buffer used by the C4 witness: pending sequences
1, 2, 4 with `last_displayed_seq = 0`. -/
def bufW4 : MessageBuffer :=
  { messages := [⟨some "a", 1, "m1"⟩, ⟨some "b", 2, "m2"⟩,
      ⟨some "c", 4, "m4"⟩]
    last_displayed_seq := 0
    max_buffer_size := 1000, max_displayed_ids := 5000
    seen_ids := ["a", "b", "c"]
    displayed_set := [], displayed_list := [] }

/-- Witness for C4: on the concrete buffer the drained prefix is the
consecutive prefix (sequences 1, 2). -/
theorem getNewMessages_spec_witness :
    (bufW4.getNewMessages).1 = consecPrefix 1 bufW4.messages :=
  (getNewMessages_spec bufW4 (by decide) (by decide) (by decide)).1

/-!  C3: out-of-order admission and in-order drain.

First the correctness of the binary-search insert position on a sorted
pending list.  -/

/-- The sortedness of the pending list, phrased on indices as the
binary search sees it. -/
def SeqSortedIdx (msgs : List StoredMsg) : Prop :=
  ∀ i j, i < j → j < msgs.length → seqAt msgs i < seqAt msgs j

theorem seqSortedIdx_of_pairwise (msgs : List StoredMsg)
    (h : msgs.Pairwise (fun a c => a.seq < c.seq)) : SeqSortedIdx msgs := by
  intro i j hij hj
  have hi : i < msgs.length := lt_trans hij hj
  have := List.pairwise_iff_getElem.mp h i j hi hj hij
  simp only [seqAt, List.getElem?_eq_getElem hi,
    List.getElem?_eq_getElem hj]
  exact this

theorem findInsertAux_spec (msgs : List StoredMsg) (target : Int)
    (hsorted : SeqSortedIdx msgs) :
    ∀ fuel left right, right - left ≤ fuel → left ≤ right →
    right ≤ msgs.length →
    (∀ i, i < left → seqAt msgs i < target) →
    (∀ i, right ≤ i → i < msgs.length → ¬ seqAt msgs i < target) →
    (findInsertAux msgs target left right ≤ msgs.length ∧
     (∀ i, i < findInsertAux msgs target left right →
        seqAt msgs i < target) ∧
     (∀ i, findInsertAux msgs target left right ≤ i →
        i < msgs.length → ¬ seqAt msgs i < target)) := by
  intro fuel
  induction fuel with
  | zero =>
    intro left right hf hlr hrl hl hr
    have he : left = right := by omega
    rw [findInsertAux, dif_neg (by omega)]
    exact ⟨by omega, hl, fun i hi => hr i (by omega)⟩
  | succ fuel ih =>
    intro left right hf hlr hrl hl hr
    by_cases hcond : left < right
    · rw [findInsertAux, dif_pos hcond]
      simp only
      by_cases hmid : seqAt msgs ((left + right) / 2) < target
      · rw [if_pos hmid]
        refine ih ((left + right) / 2 + 1) right (by omega) (by omega)
          hrl ?_ hr
        intro i hi
        by_cases hil : i < left
        · exact hl i hil
        · by_cases hie : i = (left + right) / 2
          · rw [hie]; exact hmid
          · have : i < (left + right) / 2 := by omega
            exact lt_trans (hsorted i ((left + right) / 2) this
              (by omega)) hmid
      · rw [if_neg hmid]
        refine ih left ((left + right) / 2) (by omega) (by omega)
          (by omega) hl ?_
        intro i hi hilen
        by_cases hie : i = (left + right) / 2
        · rw [hie]; exact hmid
        · have hgt : (left + right) / 2 < i := by omega
          intro hcon
          exact hmid (lt_trans (hsorted ((left + right) / 2) i hgt hilen)
            hcon)
    · rw [findInsertAux, dif_neg hcond]
      exact ⟨by omega, hl, fun i hi => hr i (by omega)⟩

theorem findInsertPosition_spec (msgs : List StoredMsg) (target : Int)
    (hsorted : msgs.Pairwise (fun a c => a.seq < c.seq)) :
    findInsertPosition msgs target ≤ msgs.length ∧
    (∀ i, i < findInsertPosition msgs target → seqAt msgs i < target) ∧
    (∀ i, findInsertPosition msgs target ≤ i → i < msgs.length →
      ¬ seqAt msgs i < target) := by
  exact findInsertAux_spec msgs target (seqSortedIdx_of_pairwise msgs
    hsorted) msgs.length 0 msgs.length (by omega) (by omega) (le_refl _)
    (fun i hi => absurd hi (by omega))
    (fun i hi hilen => absurd hilen (by omega))

/-- Insertion before the first element of greater-or-equal sequence
number (what inserting at the binary-search lower bound amounts to on a
sorted list). -/
def insSorted (x : StoredMsg) : List StoredMsg → List StoredMsg
  | [] => [x]
  | y :: l => if x.seq ≤ y.seq then x :: y :: l else y :: insSorted x l

theorem insertIdx_eq_insSorted (msgs : List StoredMsg) (m : StoredMsg)
    (p : Nat) (h1 : p ≤ msgs.length)
    (h2 : ∀ i, i < p → seqAt msgs i < m.seq)
    (h3 : ∀ i, p ≤ i → i < msgs.length → ¬ seqAt msgs i < m.seq) :
    msgs.insertIdx p m = insSorted m msgs := by
  induction msgs generalizing p with
  | nil =>
    have : p = 0 := Nat.le_zero.mp (by simpa using h1)
    subst this
    rfl
  | cons m0 rest ih =>
    cases p with
    | zero =>
      have h0 : ¬ seqAt (m0 :: rest) 0 < m.seq :=
        h3 0 (le_refl 0) (by simp)
      have : m.seq ≤ m0.seq := by
        simp only [seqAt] at h0
        simp only [List.getElem?_cons_zero] at h0
        omega
      simp [insSorted, this, List.insertIdx]
    | succ q =>
      have hlt : m0.seq < m.seq := by
        have := h2 0 (Nat.succ_pos q)
        simpa [seqAt] using this
      have hnle : ¬ m.seq ≤ m0.seq := by omega
      simp only [insSorted, if_neg hnle, List.insertIdx_succ_cons]
      refine congrArg (m0 :: ·) (ih q (by simpa using h1) ?_ ?_)
      · intro i hi
        have := h2 (i + 1) (Nat.succ_lt_succ hi)
        simpa [seqAt] using this
      · intro i hqi hilen
        have := h3 (i + 1) (Nat.succ_le_succ hqi)
          (by simpa using Nat.succ_lt_succ hilen)
        simpa [seqAt] using this

theorem insSorted_perm (m : StoredMsg) (l : List StoredMsg) :
    (insSorted m l).Perm (m :: l) := by
  induction l with
  | nil => exact List.Perm.refl _
  | cons y rest ih =>
    by_cases h : m.seq ≤ y.seq
    · simp [insSorted, h]
    · simp only [insSorted, if_neg h]
      exact (ih.cons y).trans (List.Perm.swap m y rest)

theorem insSorted_sorted (m : StoredMsg) (l : List StoredMsg)
    (hsort : l.Pairwise (fun a c => a.seq < c.seq))
    (hne : ∀ mm ∈ l, mm.seq ≠ m.seq) :
    (insSorted m l).Pairwise (fun a c => a.seq < c.seq) := by
  induction l with
  | nil => simp [insSorted]
  | cons y rest ih =>
    rcases List.pairwise_cons.mp hsort with ⟨hy, hrest⟩
    by_cases h : m.seq ≤ y.seq
    · have hmy : m.seq < y.seq := by
        have := hne y (List.mem_cons_self y rest)
        omega
      simp only [insSorted, if_pos h]
      refine List.pairwise_cons.mpr ⟨?_, hsort⟩
      intro c hc
      rcases List.mem_cons.mp hc with he | hc2
      · rw [he]; exact hmy
      · exact lt_trans hmy (hy c hc2)
    · have hym : y.seq < m.seq := by omega
      simp only [insSorted, if_neg h]
      refine List.pairwise_cons.mpr ⟨?_, ?_⟩
      · intro c hc
        have : c ∈ m :: rest := (insSorted_perm m rest).subset hc
        rcases List.mem_cons.mp this with he | hc2
        · rw [he]; exact hym
        · exact hy c hc2
      · exact ih hrest (fun mm hmm => hne mm (List.mem_cons_of_mem y hmm))

/-- The dict handed to `add_message` for a well-formed stream element. -/
def toInput (m : StoredMsg) : Option PyMessage :=
  some { sequence_number := some (PyVal.vint m.seq)
         message_id := m.message_id
         content := m.content }

/-- Admit a whole stream through `MessageBuffer.add_message`. -/
def admitAll (b : MessageBuffer) (stream : List StoredMsg) :
    MessageBuffer :=
  stream.foldl (fun acc mm => (acc.addMessage (toInput mm)).2) b

/-- The integer sequence `a, a+1, …` of length `k`. -/
def intRange (a : Int) : Nat → List Int
  | 0 => []
  | Nat.succ k => a :: intRange (a + 1) k

theorem enforceBufferLimit_id (b : MessageBuffer)
    (h : b.messages.length ≤ b.max_buffer_size) :
    enforceBufferLimit b = b := by
  unfold enforceBufferLimit
  rw [if_neg (by omega)]

theorem insSorted_length (m : StoredMsg) (l : List StoredMsg) :
    (insSorted m l).length = l.length + 1 := by
  have := (insSorted_perm m l).length_eq
  simpa using this

/-- What `add_message` does to a fresh, non-duplicate, in-range
message: insert it at the sorted position and record its id as seen. -/
theorem addMessage_valid (b : MessageBuffer) (m : StoredMsg) (s : String)
    (hid : m.message_id = some s) (hs : s ≠ "")
    (hpos : 1 ≤ m.seq)
    (hseen : s ∉ b.seen_ids) (hdisp : s ∉ b.displayed_set)
    (hlast : b.last_displayed_seq < m.seq)
    (hsort : b.messages.Pairwise (fun a c => a.seq < c.seq))
    (hnotin : ∀ mm ∈ b.messages, mm.seq ≠ m.seq)
    (hlen : b.messages.length < b.max_buffer_size) :
    b.addMessage (toInput m) =
      (true, { b with
                messages := insSorted m b.messages
                seen_ids := setAdd b.seen_ids s }) := by
  obtain ⟨hple, hbelow, habove⟩ := findInsertPosition_spec b.messages m.seq
    hsort
  have hdupcheck : (match b.messages[findInsertPosition b.messages m.seq]?
      with
      | some mm => decide (mm.seq = m.seq)
      | none => false) = false := by
    cases hx : b.messages[findInsertPosition b.messages m.seq]? with
    | none => rfl
    | some mm =>
      have hplt : findInsertPosition b.messages m.seq < b.messages.length :=
        List.getElem?_eq_some_iff.mp hx |>.1
      have hmem : mm ∈ b.messages := by
        have := List.getElem?_eq_some_iff.mp hx
        obtain ⟨hlt, hval⟩ := this
        exact hval ▸ List.getElem_mem hlt
      have hne := hnotin mm hmem
      simp [hne]
  have hinsert : b.messages.insertIdx (findInsertPosition b.messages m.seq)
      m = insSorted m b.messages :=
    insertIdx_eq_insSorted b.messages m _ hple hbelow habove
  simp only [MessageBuffer.addMessage, toInput, hid]
  rw [if_neg (by omega)]
  rw [if_neg (fun hcon => ?_)]
  rotate_left
  · obtain ⟨-, s', heq, hmem⟩ := hcon
    have : s = s' := Option.some.inj heq
    subst this
    rcases hmem with h1 | h2
    · exact hseen h1
    · exact hdisp h2
  rw [if_neg (by omega)]
  rw [hdupcheck]
  simp only [Bool.false_eq_true, if_false]
  have hstored : (⟨some s, m.seq, m.content⟩ : StoredMsg) = m := by
    rcases m with ⟨mid, seq, content⟩
    simp only at hid
    rw [hid]
  rw [hstored, hinsert]
  have htr : truthyId (some s) = true := by simp [truthyId, hs]
  rw [htr]
  simp only [if_true]
  refine congrArg (Prod.mk true) ?_
  apply enforceBufferLimit_id
  simp only [insSorted_length]
  omega

theorem setAdd_mem_cases (l : List String) (x t : String)
    (h : t ∈ setAdd l x) : t ∈ l ∨ t = x := by
  unfold setAdd at h
  by_cases hx : x ∈ l
  · rw [if_pos hx] at h; exact Or.inl h
  · rw [if_neg hx] at h
    rcases List.mem_append.mp h with h1 | h2
    · exact Or.inl h1
    · exact Or.inr (List.mem_singleton.mp h2)

theorem intRange_mem_bounds (a x : Int) :
    ∀ k : Nat, x ∈ intRange a k → a ≤ x ∧ x < a + k := by
  intro k
  induction k generalizing a with
  | zero => intro h; cases h
  | succ k ih =>
    intro h
    rcases List.mem_cons.mp h with he | hm
    · subst he
      constructor
      · exact le_refl _
      · omega
    · have := ih (a + 1) hm
      push_cast at this ⊢
      omega

theorem intRange_pairwise_lt (a : Int) :
    ∀ k : Nat, (intRange a k).Pairwise (fun x y => x < y) := by
  intro k
  induction k generalizing a with
  | zero => exact List.Pairwise.nil
  | succ k ih =>
    refine List.pairwise_cons.mpr ⟨?_, ih (a + 1)⟩
    intro x hx
    have := (intRange_mem_bounds (a + 1) x k hx).1
    omega

/-- Invariant of the admission fold: starting from a buffer holding a
sorted permutation of `admitted`, admitting `remaining` (fresh ids,
fresh in-range sequence numbers, room under the cap) ends with a sorted
permutation of `admitted ++ remaining` and an untouched
`last_displayed_seq`. -/
theorem admitAll_inv (remaining : List StoredMsg) :
    ∀ (admitted : List StoredMsg) (b : MessageBuffer),
    b.messages.Perm admitted →
    b.messages.Pairwise (fun a c => a.seq < c.seq) →
    b.last_displayed_seq = 0 →
    b.displayed_set = [] →
    (∀ s, s ∈ b.seen_ids → ∃ mm ∈ admitted, mm.message_id = some s) →
    admitted.length + remaining.length ≤ b.max_buffer_size →
    (∀ mm ∈ remaining, 1 ≤ mm.seq) →
    (admitted ++ remaining).Pairwise (fun a c => a.seq ≠ c.seq) →
    (∀ mm ∈ remaining, ∃ s, mm.message_id = some s ∧ s ≠ "") →
    (admitted ++ remaining).Pairwise
      (fun a c => a.message_id ≠ c.message_id) →
    (admitAll b remaining).messages.Perm (admitted ++ remaining) ∧
    (admitAll b remaining).messages.Pairwise
      (fun a c => a.seq < c.seq) ∧
    (admitAll b remaining).last_displayed_seq = 0 := by
  induction remaining with
  | nil =>
    intro admitted b hpermb hsort hlast hdisp hseen hcap hpos hseqnd hids
      hidnd
    exact ⟨by simpa using hpermb, hsort, hlast⟩
  | cons m rest ih =>
    intro admitted b hpermb hsort hlast hdisp hseen hcap hpos hseqnd hids
      hidnd
    obtain ⟨s, hid, hs⟩ := hids m (List.mem_cons_self m rest)
    have hcross_id : ∀ a ∈ admitted, ∀ c ∈ m :: rest,
        a.message_id ≠ c.message_id :=
      (List.pairwise_append.mp hidnd).2.2
    have hcross_seq : ∀ a ∈ admitted, ∀ c ∈ m :: rest, a.seq ≠ c.seq :=
      (List.pairwise_append.mp hseqnd).2.2
    have hseen_s : s ∉ b.seen_ids := by
      intro hin
      obtain ⟨mm, hmma, hmmid⟩ := hseen s hin
      exact hcross_id mm hmma m (List.mem_cons_self m rest)
        (by rw [hmmid, hid])
    have hdisp_s : s ∉ b.displayed_set := by rw [hdisp]; simp
    have hlast_m : b.last_displayed_seq < m.seq := by
      rw [hlast]
      have := hpos m (List.mem_cons_self m rest)
      omega
    have hnotin : ∀ mm ∈ b.messages, mm.seq ≠ m.seq := by
      intro mm hmm
      exact hcross_seq mm (hpermb.subset hmm) m (List.mem_cons_self m rest)
    have hlen : b.messages.length < b.max_buffer_size := by
      have := hpermb.length_eq
      simp only [List.length_cons] at hcap
      omega
    have hstep := addMessage_valid b m s hid hs
      (hpos m (List.mem_cons_self m rest)) hseen_s hdisp_s hlast_m hsort
      hnotin hlen
    have hfold : admitAll b (m :: rest) =
        admitAll (b.addMessage (toInput m)).2 rest := rfl
    rw [hfold, hstep]
    have hres := ih (admitted ++ [m])
      { b with messages := insSorted m b.messages
               seen_ids := setAdd b.seen_ids s }
      ((insSorted_perm m b.messages).trans
        ((hpermb.cons m).trans (List.perm_append_singleton m
          admitted).symm))
      (insSorted_sorted m b.messages hsort hnotin)
      hlast hdisp
      (by
        intro t ht
        rcases setAdd_mem_cases b.seen_ids s t ht with h1 | h2
        · obtain ⟨mm, hmma, hmmid⟩ := hseen t h1
          exact ⟨mm, List.mem_append_left _ hmma, hmmid⟩
        · exact ⟨m, List.mem_append_right _ (List.mem_singleton_self m),
            h2 ▸ hid⟩)
      (by simp only [List.length_append, List.length_singleton]
          simp only [List.length_cons] at hcap
          omega)
      (fun mm hmm => hpos mm (List.mem_cons_of_mem m hmm))
      (by simpa [List.append_assoc] using hseqnd)
      (fun mm hmm => hids mm (List.mem_cons_of_mem m hmm))
      (by simpa [List.append_assoc] using hidnd)
    refine ⟨?_, hres.2.1, hres.2.2⟩
    exact hres.1.trans (by simp)

theorem collectDisplayable_complete : ∀ (msgs : List StoredMsg) (e : Int),
    msgs.map (fun mm => mm.seq) = intRange e msgs.length →
    collectDisplayable e msgs = msgs := by
  intro msgs
  induction msgs with
  | nil => intro e _; rfl
  | cons m rest ih =>
    intro e h
    simp only [List.map_cons, List.length_cons, intRange] at h
    obtain ⟨h1, h2⟩ := List.cons.inj h
    simp only [collectDisplayable, if_pos h1]
    rw [← h1, ih (m.seq + 1) (by rw [h2, h1])]

theorem getNewMessages_fst (b : MessageBuffer) :
    (b.getNewMessages).1 =
      collectDisplayable (b.last_displayed_seq + 1) b.messages := by
  by_cases h : (collectDisplayable (b.last_displayed_seq + 1)
      b.messages).isEmpty <;>
    simp [MessageBuffer.getNewMessages, h]

/-- C3 amended: starting from a fresh buffer whose capacity is at least
the stream length, admitting any permutation of a stream with sequence
numbers exactly 1..n and distinct non-empty message ids, a final drain
returns exactly the stream's messages, in sequence order 1..n and
without duplicates.  (Without the capacity proviso the claim fails: the
head-trimming of an over-full pending buffer drops messages for
good.) -/
theorem messageBuffer_restores_order (cap dcap : Nat)
    (stream : List StoredMsg)
    (hcap : stream.length ≤ cap)
    (hperm : (stream.map (fun mm => mm.seq)).Perm
      (intRange 1 stream.length))
    (hids : ∀ mm ∈ stream, ∃ s, mm.message_id = some s ∧ s ≠ "")
    (hidnd : stream.Pairwise (fun a c => a.message_id ≠ c.message_id)) :
    ((admitAll (MessageBuffer.init cap dcap)
      stream).getNewMessages).1.Perm stream ∧
    ((admitAll (MessageBuffer.init cap dcap)
      stream).getNewMessages).1.map (fun mm => mm.seq) =
      intRange 1 stream.length := by
  have hposall : ∀ mm ∈ stream, 1 ≤ mm.seq := by
    intro mm hmm
    have hmemmap : mm.seq ∈ stream.map (fun mm => mm.seq) :=
      List.mem_map_of_mem _ hmm
    have := hperm.subset hmemmap
    exact (intRange_mem_bounds 1 mm.seq stream.length this).1
  have hndmap : (stream.map (fun mm => mm.seq)).Nodup :=
    (hperm.nodup_iff).mpr ((intRange_pairwise_lt 1 stream.length).imp
      (fun h => ne_of_lt h))
  have hseqnd : stream.Pairwise (fun a c => a.seq ≠ c.seq) :=
    List.pairwise_map.mp hndmap
  have hinv := admitAll_inv stream [] (MessageBuffer.init cap dcap)
    (List.Perm.refl _) List.Pairwise.nil rfl rfl
    (fun s hsmem => absurd hsmem (List.not_mem_nil s))
    (by simpa using hcap) hposall (by simpa using hseqnd) hids
    (by simpa using hidnd)
  obtain ⟨hpermf, hsortf, hlastf⟩ := hinv
  rw [List.nil_append] at hpermf
  have hmapperm : ((admitAll (MessageBuffer.init cap dcap)
      stream).messages.map (fun mm => mm.seq)).Perm
      (intRange 1 stream.length) :=
    (hpermf.map (fun mm => mm.seq)).trans hperm
  have hmapeq : (admitAll (MessageBuffer.init cap dcap)
      stream).messages.map (fun mm => mm.seq) =
      intRange 1 stream.length := by
    have hs1 : List.Sorted (fun x y : Int => x ≤ y)
        ((admitAll (MessageBuffer.init cap dcap) stream).messages.map
          (fun mm => mm.seq)) :=
      (List.pairwise_map.mpr hsortf).imp (fun h => le_of_lt h)
    have hs2 : List.Sorted (fun x y : Int => x ≤ y)
        (intRange 1 stream.length) :=
      (intRange_pairwise_lt 1 stream.length).imp (fun h => le_of_lt h)
    exact List.eq_of_perm_of_sorted hmapperm hs1 hs2
  have hlenf : (admitAll (MessageBuffer.init cap dcap)
      stream).messages.length = stream.length := hpermf.length_eq
  have hdrain : ((admitAll (MessageBuffer.init cap dcap)
      stream).getNewMessages).1 =
      (admitAll (MessageBuffer.init cap dcap) stream).messages := by
    rw [getNewMessages_fst, hlastf]
    have : (0 : Int) + 1 = 1 := by norm_num
    rw [this]
    exact collectDisplayable_complete _ 1 (by rw [hmapeq, hlenf])
  rw [hdrain]
  exact ⟨hpermf, hmapeq⟩

/-- The C3 counterexample stream: sequences 3, 2, 1 with distinct
non-empty ids, admitted in decreasing order. -/
def streamX3 : List StoredMsg :=
  [⟨some "c", 3, "m3"⟩, ⟨some "b", 2, "m2"⟩, ⟨some "a", 1, "m1"⟩]

/-- The buffer state actually reached by admitting `streamX3` into a
fresh buffer of capacity 2: the head-trim of `_enforce_buffer_limit`
discarded the sequence-1 message. -/
def bufX3 : MessageBuffer :=
  { messages := [⟨some "b", 2, "m2"⟩, ⟨some "c", 3, "m3"⟩]
    last_displayed_seq := 0
    max_buffer_size := 2, max_displayed_ids := 5000
    seen_ids := ["c", "b"], displayed_set := [], displayed_list := [] }

set_option maxRecDepth 4000 in
theorem admit_streamX3_eq : admitAll (MessageBuffer.init 2 5000) streamX3
    = bufX3 := by
  simp only [admitAll, streamX3, List.foldl_cons, List.foldl_nil]
  simp [MessageBuffer.init, MessageBuffer.addMessage,
    toInput, findInsertPosition, findInsertAux, seqAt, enforceBufferLimit,
    setAdd, truthyId, discardId, bufX3]

/-- Counterexample to C3 as stated: a `MessageBuffer` of capacity 2 fed
the permutation 3, 2, 1 of a 3-message stream (distinct ids, sequences
exactly 1..3) drains to the empty list — not the original sequence —
because the buffer-limit trim dropped the sequence-1 message. -/
theorem messageBuffer_trim_cex :
    (streamX3.map (fun mm => mm.seq)).Perm (intRange 1 streamX3.length) ∧
    (∀ mm ∈ streamX3, ∃ s, mm.message_id = some s ∧ s ≠ "") ∧
    streamX3.Pairwise (fun a c => a.message_id ≠ c.message_id) ∧
    ((admitAll (MessageBuffer.init 2 5000) streamX3).getNewMessages).1
      = [] ∧
    ¬ ((admitAll (MessageBuffer.init 2 5000)
        streamX3).getNewMessages).1.Perm streamX3 := by
  refine ⟨by decide, by decide, by decide, ?_, ?_⟩
  · rw [admit_streamX3_eq]
    decide
  · rw [admit_streamX3_eq]
    intro hcon
    have := hcon.length_eq
    simp [bufX3, MessageBuffer.getNewMessages, collectDisplayable,
      streamX3] at this

/-- The C3 witness stream: two messages admitted out of order. -/
def streamW3 : List StoredMsg :=
  [⟨some "b", 2, "m2"⟩, ⟨some "a", 1, "m1"⟩]

/-- Witness for C3's amended theorem: a capacity-1000 buffer fed the
permutation 2, 1 drains in order 1, 2. -/
theorem messageBuffer_restores_order_witness :
    ((admitAll (MessageBuffer.init 1000 5000)
      streamW3).getNewMessages).1.map (fun mm => mm.seq) =
      intRange 1 streamW3.length :=
  (messageBuffer_restores_order 1000 5000 streamW3 (by decide)
    (by decide) (by decide) (by decide)).2

end DSG1
